import Mathlib

/-!
Verification of the weekly SharePoint automation script (`sharepoint_weekly.py`).

The script's text-transformation routines, retry/polling loops, chunked upload
and orchestration skeleton are shallowly embedded below.  Strings are modelled
as `String`/`List Char`; Python `datetime` values are modelled at day
granularity as an integer count of days since 1970-01-01 (the proleptic
Gregorian calendar used by `datetime` is embedded explicitly); byte strings are
`List Nat`; HTTP effects are modelled by explicit oracles (a function giving
the response of each remote call) and runs return `Except` values mirroring
raised exceptions.  Regex character classes (`\d`, `\s`, `\w`, `[A-Za-z]`) are
modelled over their ASCII extent.
-/

/-! ## Character classes (ASCII extent of the Python regex classes) -/

/-- Python regex `\s` (ASCII extent): space, tab, newline, carriage return,
vertical tab, form feed. -/
def isPySpace (c : Char) : Bool :=
  c = ' ' || c = '\t' || c = '\n' || c = '\r' || c = '\x0b' || c = '\x0c'

/-- Python regex `\d` (ASCII extent). -/
def isAsciiDigit (c : Char) : Bool :=
  '0' ≤ c && c ≤ '9'

/-- Regex class `[A-Za-z]`. -/
def isAsciiLetter (c : Char) : Bool :=
  ('A' ≤ c && c ≤ 'Z') || ('a' ≤ c && c ≤ 'z')

/-- Python regex `\w` (ASCII extent): letters, digits, underscore. -/
def isWordChar (c : Char) : Bool :=
  isAsciiLetter c || isAsciiDigit c || c = '_'

/-- The separator class `[-–—]` of `PREFIX_RE`: hyphen, en dash, em dash. -/
def isDashChar (c : Char) : Bool :=
  c = '-' || c = '–' || c = '—'

/-- Strip trailing `\s` characters (the effect of the regex tail `\s*$`). -/
def rtrimSpaces (l : List Char) : List Char :=
  (l.reverse.dropWhile isPySpace).reverse

/-- Consume an optional literal character (regex `X?`); returns the consumed
part and the rest.  An optional literal that is present must be consumed:
skipping it would place it under the following token, which never accepts
it in the patterns at hand. -/
def matchOptChar (c : Char) (l : List Char) : List Char × List Char :=
  match l with
  | x :: t => if x = c then ([x], t) else ([], l)
  | [] => ([], [])

/-! ## `os.path.splitext` (CPython `genericpath._splitext`, posix separators)

The extension starts at the last dot that comes after the last `/`, provided
some character between the last `/` and that dot is not itself a dot
(leading dots of the basename never start an extension). -/

/-- Extension split of a path component that contains no `/`
(the index arithmetic of `genericpath._splitext` restated on the basename). -/
def splitextName (fname : List Char) : List Char × List Char :=
  let r := fname.reverse
  let tailr := r.takeWhile (fun c => c ≠ '.')
  match r.dropWhile (fun c => c ≠ '.') with
  | [] => (fname, [])
  | _ :: brev =>
    let b := brev.reverse
    if b.any (fun c => c ≠ '.') then (b, '.' :: tailr.reverse) else (fname, [])

/-- Model of `os.path.splitext` (posix: `sep = '/'`, no `altsep`, `extsep = '.'`). -/
def splitext (p : List Char) : List Char × List Char :=
  let r := p.reverse
  let fnameRev := r.takeWhile (fun c => c ≠ '/')
  let dirRev := r.dropWhile (fun c => c ≠ '/')
  let be := splitextName fnameRev.reverse
  (dirRev.reverse ++ be.1, be.2)

/-! ## Date model

A `datetime` is modelled at day granularity by the number of days since
1970-01-01 (an `Int`).  1970-01-01 is a Thursday, so Python's
`date.weekday()` (Monday = 0 … Sunday = 6) of day `d` is `(d + 3) % 7`. -/

/-- Model of `dt.weekday()` of the day numbered `d` (Monday = 0 … Friday = 4). -/
def pyWeekday (d : Int) : Int := (d + 3) % 7

/-- Model of `_next_friday`: `days_ahead = (4 - dt.weekday()) % 7`, bumped to `7`
when zero (a Friday input advances to next week's Friday). -/
def _next_friday (d : Int) : Int :=
  let days_ahead := (4 - pyWeekday d) % 7
  let days_ahead := if days_ahead = 0 then (7 : Int) else days_ahead
  d + days_ahead

/-- Model of `MONTH_ABBR` from the script. -/
def MONTH_ABBR : List String :=
  ["Jan", "Feb", "Mar", "Apr", "May", "Jun", "Jul", "Aug", "Sep", "Oct", "Nov", "Dec"]

/-- Civil (proleptic Gregorian) date of day number `z` (days since 1970-01-01),
as `(year, month, day)`; this is the calendar `datetime` exposes.  The
divisions are exact ports of the standard days-to-civil conversion, whose
intermediate values are arranged to be nonnegative, so Lean's truncating
`Int` division agrees. -/
def civil_from_days (z : Int) : Int × Int × Int :=
  let z := z + 719468
  let era := (if 0 ≤ z then z else z - 146096) / 146097
  let doe := z - era * 146097
  let yoe := (doe - doe / 1460 + doe / 36524 - doe / 146096) / 365
  let y := yoe + era * 400
  let doy := doe - (365 * yoe + yoe / 4 - yoe / 100)
  let mp := (5 * doy + 2) / 153
  let d := doy - (153 * mp + 2) / 5 + 1
  let m := if mp < 10 then mp + 3 else mp - 9
  (if m ≤ 2 then y + 1 else y, m, d)

/-- Zero-padded two-digit day, Python `f"{day:02d}"` for `1 ≤ d ≤ 31`. -/
def twoDigit (d : Int) : String :=
  (if d < 10 then "0" else "") ++ toString d

/-- Model of `today_strings` , with the current datetime (`datetime.now(tz)`) passed in
as the day number `now`: returns `(folder_name, file_prefix)` for the next
Friday. -/
def today_strings (now : Int) : String × String :=
  let target := _next_friday now
  let ymd := civil_from_days target
  let day2 := twoDigit ymd.2.2
  let mon_abbr := MONTH_ABBR.getD (ymd.2.1 - 1).toNat ""
  ("W.E. " ++ mon_abbr ++ " " ++ day2 ++ " " ++ toString ymd.1,
   day2 ++ " " ++ mon_abbr)

/-- Model of `today_slide_date` with the current datetime passed in as day number:
`"DD Mon YYYY"`, with `"Sep"` widened to `"Sept"` when requested. -/
def today_slide_date (prefer_sept_with_t : Bool) (now : Int) : String :=
  let target := _next_friday now
  let ymd := civil_from_days target
  let day := twoDigit ymd.2.2
  let mon := MONTH_ABBR.getD (ymd.2.1 - 1).toNat ""
  let mon := if prefer_sept_with_t && mon = "Sep" then "Sept" else mon
  day ++ " " ++ mon ++ " " ++ toString ymd.1

/-! ## `PREFIX_RE` and `build_new_filename`

`PREFIX_RE = ^\s*(\d{1,2})\s+([A-Za-z]{3,9}\.?)\s*[-–—]\s+(.+?)\s*$` (verbose,
ignorecase).  The matcher below is the deterministic residue of the regex's
backtracking search:

* leading `\s*`, `\d{1,2}` and `\s+`, `[A-Za-z]{3,9}`, the optional dot and
  the `\s*` before the dash are all forced (every character class involved is
  disjoint from its successor, so greedy maximal munch is the only viable
  choice, and shrinking a quantifier always places a character of the wrong
  class under the next token);
* after the dash, `\s+(.+?)\s*$` captures, when anything non-whitespace
  follows the whitespace run, the remainder with its trailing whitespace
  stripped — provided the stripped core contains no newline (`.` does not
  match `\n`, and `$` also matches just before a terminal `\n`, which is
  subsumed because `\n` is itself `\s`);
* when only whitespace follows the dash, `\s+` backtracks and the lazy group
  captures the single whitespace character at the largest position `≥ 1` that
  is not a newline. -/

/-- The part of `PREFIX_RE` after the separator: `\s+(.+?)\s*$`.
Returns the group-3 capture. -/
def restAfterDash (t : List Char) : Option (List Char) :=
  let a := t.takeWhile isPySpace
  let q := t.dropWhile isPySpace
  if a = [] then none
  else if q = [] then
    match (t.drop 1).reverse.find? (fun c => c ≠ '\n') with
    | some c => some [c]
    | none => none
  else
    let core := rtrimSpaces q
    if core.any (fun c => c = '\n') then none else some core

/-- Model of `PREFIX_RE.match(base)`: on success returns the three captures
`(day digits, month with optional dot, rest)`. -/
def PREFIX_RE_match (base : List Char) : Option (List Char × List Char × List Char) :=
  let s1 := base.dropWhile isPySpace
  let digits := s1.takeWhile isAsciiDigit
  let r1 := s1.dropWhile isAsciiDigit
  if digits.length = 0 || 2 < digits.length then none
  else if r1.takeWhile isPySpace = [] then none
  else
    let s2 := r1.dropWhile isPySpace
    let letters := s2.takeWhile isAsciiLetter
    let r2 := s2.dropWhile isAsciiLetter
    if letters.length < 3 || 9 < letters.length then none
    else
      let pdot := matchOptChar '.' r2
      match pdot.2.dropWhile isPySpace with
      | [] => none
      | dash :: t =>
        if isDashChar dash then
          (restAfterDash t).map (fun rest => (digits, letters ++ pdot.1, rest))
        else none

/-- Model of `build_new_filename(original_name, new_prefix)`. -/
def build_new_filename (original_name : String) (newPref : String) : String :=
  let be := splitext original_name.toList
  match PREFIX_RE_match be.1 with
  | some g => newPref ++ " - " ++ String.mk g.2.2 ++ String.mk be.2
  | none => newPref ++ " - " ++ String.mk be.1 ++ String.mk be.2

/-! ## `rename_item_with_collision_retry`

The HTTP layer is abstracted by an oracle mapping each candidate name to the
response of the `PATCH` that submits it.  `requests.Response.ok` is
`status < 400`; the response body's `"name"` field is an `Option`. -/

/-- Abstract HTTP response: status code and the optional `"name"` field of
the JSON body. -/
structure HttpResp where
  status : Nat
  name : Option String
deriving DecidableEq

/-- Model of `requests.Response.ok`. -/
def respOk (r : HttpResp) : Bool := r.status < 400

/-- Default of the `max_tries` parameter. -/
def rename_max_tries_default : Nat := 5

/-- The candidate tried at loop index `n`:
`f"{base}{'' if n==0 else f' ({n})'}{ext}"`. -/
def renameCandidate (base ext : String) (n : Nat) : String :=
  base ++ (if n = 0 then "" else " (" ++ toString n ++ ")") ++ ext

/-- The `for n in range(max_tries)` loop; `n` is the loop index, the second
argument the remaining iterations. -/
def renameGo (resp : String → HttpResp) (base ext : String) (maxTries : Nat) :
    Nat → Nat → Except String String
  | _, 0 => .error ("Could not rename after " ++ toString maxTries ++ " attempts.")
  | n, rem + 1 =>
    let candidate := renameCandidate base ext n
    let r := resp candidate
    if respOk r then .ok (r.name.getD candidate)
    else if r.status ≠ 409 then .error ("PATCH rename -> " ++ toString r.status)
    else renameGo resp base ext maxTries (n + 1) rem

/-- Model of `rename_item_with_collision_retry(token, drive_id, item_id, new_name,
max_tries)` with the HTTP layer as the `resp` oracle. -/
def rename_item_with_collision_retry (resp : String → HttpResp)
    (new_name : String) (maxTries : Nat) : Except String String :=
  let be := splitext new_name.toList
  renameGo resp (String.mk be.1) (String.mk be.2) maxTries 0 maxTries

/-! ## Drive items, `find_child_by_name`, `poll_until_child_exists`

The remote children listing during polling is an oracle giving the listing
observed by the `k`-th poll.  Real time is idealised: the elapsed time before
poll `k` is `k * poll_s` (network latency abstracted away), so the `while`
guard `time.time() - t0 < timeout_s` becomes `k * poll_s < timeout_s`. -/

/-- A Graph drive item as used by the script: `id`, optional `name`, presence
of the `file` and `folder` facets, and the parent id. -/
structure DriveItem where
  id : String
  name : Option String
  file : Bool
  folder : Bool
  parentId : String
deriving DecidableEq

/-- Model of `find_child_by_name`: first child whose `"name"` equals `name`. -/
def find_child_by_name (children : List DriveItem) (name : String) : Option DriveItem :=
  children.find? (fun c => c.name = some name)

/-- The timeout message raised by `poll_until_child_exists`. -/
def pollTimeoutMsg (name : String) (timeout_s : Nat) : String :=
  "Folder '" ++ name ++ "' did not appear after " ++ toString timeout_s ++ " s."

/-- The polling loop; `k` is the poll index, the last argument fuel (chosen
large enough that it never runs out when `0 < poll_s`). -/
def pollGo (children : Nat → List DriveItem) (name : String) (timeout_s poll_s : Nat) :
    Nat → Nat → Except String DriveItem
  | _, 0 => .error (pollTimeoutMsg name timeout_s)
  | k, fuel + 1 =>
    if k * poll_s < timeout_s then
      match find_child_by_name (children k) name with
      | some c => .ok c
      | none => pollGo children name timeout_s poll_s (k + 1) fuel
    else .error (pollTimeoutMsg name timeout_s)

/-- Model of `poll_until_child_exists(token, drive_id, parent_id, name, timeout_s,
poll_s)` over the `children` oracle. -/
def poll_until_child_exists (children : Nat → List DriveItem) (name : String)
    (timeout_s poll_s : Nat) : Except String DriveItem :=
  pollGo children name timeout_s poll_s 0 (timeout_s + 1)

/-! ## `WEEK_ENDING_PATTERNS` and `replace_week_ending_text`

The two patterns (ignorecase)

* `\b(W\.?\s*E\.?\s*[:\-]?\s*)(\d{1,2}\s+[A-Za-z]{3,9}\.?\s+\d{4})\b`
* `\b(Week\s*Ending\s*[:\-]?\s*)(\d{1,2}\s+[A-Za-z]{3,9}\.?\s+\d{4})\b`

are again deterministic once maximal munch is taken at each quantifier: every
quantified class is disjoint from the following token, an optional dot or
punctuation character, when present, must be consumed (skipping it places it
under a token it cannot match), and the final `\b` after `\d{4}` forces the
year's digit run to have length exactly 4.  `subn` scans left to right,
restarting after each (necessarily nonempty) match; the leading `\b` holds
iff the previous character is not a word character, since a match always
starts with a word character.  The replacement template `\g<1> + label` is
modelled as concatenation, faithful for labels without backslashes. -/

/-- Consume the optional punctuation `[:\-]?`. -/
def matchOptPunct (l : List Char) : List Char × List Char :=
  match l with
  | x :: t => if x = ':' || x = '-' then ([x], t) else ([], l)
  | [] => ([], [])

/-- Consume a literal word case-insensitively (for `(?i)` literals). -/
def matchCI : List Char → List Char → Option (List Char × List Char)
  | [], l => some ([], l)
  | _ :: _, [] => none
  | c :: cs, x :: xs =>
    if x.toLower = c then (matchCI cs xs).map (fun p => (x :: p.1, p.2)) else none

/-- The tail `\s+\d{4}\b` of the date group. -/
def matchYearPart (r : List Char) : Option (List Char × List Char) :=
  let s := r.takeWhile isPySpace
  let r1 := r.dropWhile isPySpace
  if s = [] then none
  else
    let y := r1.takeWhile isAsciiDigit
    let r2 := r1.dropWhile isAsciiDigit
    if y.length ≠ 4 then none
    else
      match r2 with
      | [] => some (s ++ y, [])
      | c :: _ => if isWordChar c then none else some (s ++ y, r2)

/-- The date group `\d{1,2}\s+[A-Za-z]{3,9}\.?\s+\d{4}` with its trailing
`\b`; returns the group-2 capture and the rest. -/
def matchDate (l : List Char) : Option (List Char × List Char) :=
  let d := l.takeWhile isAsciiDigit
  let r1 := l.dropWhile isAsciiDigit
  if d.length = 0 || 2 < d.length then none
  else
    let s1 := r1.takeWhile isPySpace
    let r2 := r1.dropWhile isPySpace
    if s1 = [] then none
    else
      let mo := r2.takeWhile isAsciiLetter
      let r3 := r2.dropWhile isAsciiLetter
      if mo.length < 3 || 9 < mo.length then none
      else
        let pdot := matchOptChar '.' r3
        (matchYearPart pdot.2).map (fun p => (d ++ s1 ++ mo ++ pdot.1 ++ p.1, p.2))

/-- The lead-in group of pattern 1: `W\.?\s*E\.?\s*[:\-]?\s*` (ignorecase). -/
def matchLead1 (l : List Char) : Option (List Char × List Char) :=
  match l with
  | [] => none
  | w :: t1 =>
    if w.toLower = 'w' then
      let p1 := matchOptChar '.' t1
      let s1 := p1.2.takeWhile isPySpace
      let t3 := p1.2.dropWhile isPySpace
      match t3 with
      | [] => none
      | e :: t4 =>
        if e.toLower = 'e' then
          let p2 := matchOptChar '.' t4
          let s2 := p2.2.takeWhile isPySpace
          let t6 := p2.2.dropWhile isPySpace
          let p3 := matchOptPunct t6
          let s3 := p3.2.takeWhile isPySpace
          let t8 := p3.2.dropWhile isPySpace
          some (w :: p1.1 ++ s1 ++ e :: p2.1 ++ s2 ++ p3.1 ++ s3, t8)
        else none
    else none

/-- The lead-in group of pattern 2: `Week\s*Ending\s*[:\-]?\s*` (ignorecase). -/
def matchLead2 (l : List Char) : Option (List Char × List Char) :=
  match matchCI ['w', 'e', 'e', 'k'] l with
  | none => none
  | some p1 =>
    let s1 := p1.2.takeWhile isPySpace
    let t2 := p1.2.dropWhile isPySpace
    match matchCI ['e', 'n', 'd', 'i', 'n', 'g'] t2 with
    | none => none
    | some p2 =>
      let s2 := p2.2.takeWhile isPySpace
      let t3 := p2.2.dropWhile isPySpace
      let p3 := matchOptPunct t3
      let s3 := p3.2.takeWhile isPySpace
      let t4 := p3.2.dropWhile isPySpace
      some (p1.1 ++ s1 ++ p2.1 ++ s2 ++ p3.1 ++ s3, t4)

/-- Which of the two `WEEK_ENDING_PATTERNS`. -/
inductive WEPat where
  | we
  | weekEnding
deriving DecidableEq

/-- Attempt a match of the given pattern at the current position; `prevW`
says whether the character before this position is a word character (the
leading `\b`).  On success returns `(group 1, group 2, rest)`. -/
def matchWEAt (pat : WEPat) (l : List Char) (prevW : Bool) :
    Option (List Char × List Char × List Char) :=
  if prevW then none
  else
    let lead := match pat with
      | .we => matchLead1 l
      | .weekEnding => matchLead2 l
    match lead with
    | none => none
    | some p =>
      match matchDate p.2 with
      | none => none
      | some q => some (p.1, q.1, q.2)

/-- Model of `rx.subn(\g<1> + label, text)` scanning with the previous-character word
flag; fuel-driven (any fuel above the text length is enough, each step
consumes at least one character). -/
def subnGo (pat : WEPat) (label : List Char) :
    Nat → Bool → List Char → List Char × Nat
  | 0, _, l => (l, 0)
  | fuel + 1, prevW, l =>
    match matchWEAt pat l prevW with
    | some g =>
      let rec' := subnGo pat label fuel true g.2.2
      (g.1 ++ label ++ rec'.1, rec'.2 + 1)
    | none =>
      match l with
      | [] => ([], 0)
      | c :: t =>
        let rec' := subnGo pat label fuel (isWordChar c) t
        (c :: rec'.1, rec'.2)

/-- Model of `rx.subn` on a whole text (position 0 has no preceding character). -/
def subnPat (pat : WEPat) (label : List Char) (text : List Char) : List Char × Nat :=
  subnGo pat label (text.length + 1) false text

/-- Model of `replace_week_ending_text(text, new_date_label)`: apply the two patterns
in order, tracking whether any substitution happened. -/
def replace_week_ending_text (text new_date_label : String) : String × Bool :=
  let r1 := subnPat .we new_date_label.toList text.toList
  let changed1 : Bool := r1.2 ≠ 0
  let t1 := if r1.2 ≠ 0 then r1.1 else text.toList
  let r2 := subnPat .weekEnding new_date_label.toList t1
  let changed2 : Bool := changed1 || r2.2 ≠ 0
  let t2 := if r2.2 ≠ 0 then r2.1 else t1
  (String.mk t2, changed2)

/-- Leftmost match of a pattern: returns `(pre, group 1, group 2, rest)` with
the text being their concatenation. -/
def findFirstWE (pat : WEPat) : Bool → List Char →
    Option (List Char × List Char × List Char × List Char)
  | prevW, [] =>
    match matchWEAt pat [] prevW with
    | some g => some ([], g.1, g.2.1, g.2.2)
    | none => none
  | prevW, c :: t =>
    match matchWEAt pat (c :: t) prevW with
    | some g => some ([], g.1, g.2.1, g.2.2)
    | none =>
      (findFirstWE pat (isWordChar c) t).map
        (fun x => (c :: x.1, x.2.1, x.2.2.1, x.2.2.2))

/-! ## Presentation model (`python-pptx` surface used by the script)

Only the structure the script touches is modelled: slides, shapes with an
optional text frame, paragraphs with runs, alignment and indent level, run
fonts.  A paragraph's `text` is the concatenation of its runs' texts; the
text frame text is the paragraphs' texts joined with `"\n"`.  `Presentation`
parsing and `prs.save` over raw bytes are abstracted as oracles (the zip/XML
serialisation itself is out of scope); parsing may raise. -/

/-- Model of `pptx.util.Pt`: points to EMU. -/
def Pt (n : Nat) : Nat := n * 12700

/-- A text run: text and the explicitly set font name/size (none = theme). -/
structure PRun where
  text : String
  fontName : Option String
  fontSize : Option Nat
deriving DecidableEq

/-- A paragraph: runs, optional explicit alignment and indent level. -/
structure PParagraph where
  runs : List PRun
  alignment : Option Nat
  level : Nat
deriving DecidableEq

/-- A shape: `text_frame` is `none` for shapes without one.  A text frame is
its list of paragraphs. -/
structure PShape where
  text_frame : Option (List PParagraph)
deriving DecidableEq

/-- A slide: its shapes. -/
structure PSlide where
  shapes : List PShape
deriving DecidableEq

/-- A presentation: its slides. -/
structure Prs where
  slides : List PSlide
deriving DecidableEq

/-- Model of `paragraph.text`: concatenation of the runs' texts. -/
def paragraphText (p : PParagraph) : String :=
  String.join (p.runs.map PRun.text)

/-- Model of `"\n".join(p.text for p in tf.paragraphs)`. -/
def textFrameText (tf : List PParagraph) : String :=
  String.intercalate "\n" (tf.map paragraphText)

/-- Inner loop of `_snapshot_text_style` over one paragraph's runs: a
non-empty run's explicitly set font name/size overwrite the accumulator, and
the loop breaks once both are known. -/
def snapshotRuns : List PRun → Option String → Option Nat → Option String × Option Nat
  | [], fn, fs => (fn, fs)
  | r :: rest, fn, fs =>
    if r.text ≠ "" then
      let fn := match r.fontName with | some n => some n | none => fn
      let fs := match r.fontSize with | some s => some s | none => fs
      if fn.isSome && fs.isSome then (fn, fs) else snapshotRuns rest fn fs
    else snapshotRuns rest fn fs

/-- Paragraph loop of `_snapshot_text_style`: while `par_align` is `None` it
is (re)read, together with `par_level`, from the current paragraph; the loop
breaks once both fonts are known. -/
def snapshotGo : List PParagraph → Option String → Option Nat → Option Nat → Option Nat →
    Option String × Option Nat × Option Nat × Option Nat
  | [], fn, fs, al, lv => (fn, fs, al, lv)
  | p :: rest, fn, fs, al, lv =>
    let allv := if al.isNone then (p.alignment, some p.level) else (al, lv)
    let fnfs := snapshotRuns p.runs fn fs
    if fnfs.1.isSome && fnfs.2.isSome then (fnfs.1, fnfs.2, allv.1, allv.2)
    else snapshotGo rest fnfs.1 fnfs.2 allv.1 allv.2

/-- Model of `_snapshot_text_style(tf)`. -/
def _snapshot_text_style (tf : List PParagraph) :
    Option String × Option Nat × Option Nat × Option Nat :=
  snapshotGo tf none none none none

/-- Model of `_rewrite_textframe_preserving_style`: clear the frame and write `text`
line by line; each line becomes one paragraph with a single run carrying the
default font (snapshot or Arial / 24 pt), alignment and level applied when
the snapshot had them. -/
def _rewrite_textframe_preserving_style (text : String) (fn : Option String)
    (fs : Option Nat) (al lv : Option Nat) : List PParagraph :=
  let default_name := fn.getD "Arial"
  let default_size := fs.getD (Pt 24)
  (text.splitOn "\n").map (fun line =>
    { runs := [{ text := line, fontName := some default_name, fontSize := some default_size }],
      alignment := al,
      level := lv.getD 0 })

/-- Per-shape body of the slide-1 loop of `update_pptx_first_slide_date`:
skip shapes without a text frame; otherwise match the joined text, and on a
change rebuild the frame with the snapshotted style. -/
def patchShape (label : String) (sh : PShape) : PShape × Bool :=
  match sh.text_frame with
  | none => (sh, false)
  | some tf =>
    let original := textFrameText tf
    let rc := replace_week_ending_text original label
    if rc.2 then
      let st := _snapshot_text_style tf
      ({ text_frame := some (_rewrite_textframe_preserving_style rc.1 st.1 st.2.1 st.2.2.1 st.2.2.2) }, true)
    else (sh, false)

/-- Model of `update_pptx_first_slide_date(ppt_bytes, new_date_label)` over parse/save
oracles: zero slides or no change return the original bytes with `false`;
otherwise the patched presentation is re-serialised. -/
def update_pptx_first_slide_date (parse : List Nat → Except String Prs)
    (save : Prs → List Nat) (ppt_bytes : List Nat) (label : String) :
    Except String (List Nat × Bool) :=
  match parse ppt_bytes with
  | .error e => .error e
  | .ok prs =>
    match prs.slides with
    | [] => .ok (ppt_bytes, false)
    | s :: rest =>
      let results := s.shapes.map (patchShape label)
      let changed_any := results.any (fun r => r.2)
      if changed_any then
        .ok (save { slides := { shapes := results.map (fun r => r.1) } :: rest }, true)
      else .ok (ppt_bytes, false)

/-! ## `update_pptx_dates_in_folder`

The remote layer is an environment of oracles; the function returns the
`updated` counter together with the list of upload attempts
`(item id, bytes)` — the run's observable write effects.  The per-file
`try/except` catches any failure (download, parse, upload) and moves on. -/

/-- Oracles for the pptx-patching stage. -/
structure PptxEnv where
  parse : List Nat → Except String Prs
  save : Prs → List Nat
  download : String → Except String (List Nat)
  upload : String → List Nat → Except String Unit

/-- Model of `name.lower().endswith(".pptx")` (ASCII lowering, over the char list). -/
def lowerEndsWithPptx (name : String) : Bool :=
  List.isSuffixOf (".pptx".toList) (name.toList.map Char.toLower)

/-- Body of the per-file `try:` block; a caught exception contributes `0` to
the counter (a failed upload still appears among the attempts). -/
def processPptxItem (env : PptxEnv) (label : String) (it : DriveItem) :
    Nat × List (String × List Nat) :=
  match env.download it.id with
  | .error _ => (0, [])
  | .ok b =>
    match update_pptx_first_slide_date env.parse env.save b label with
    | .error _ => (0, [])
    | .ok r =>
      if r.2 then
        match env.upload it.id r.1 with
        | .ok _ => (1, [(it.id, r.1)])
        | .error _ => (0, [(it.id, r.1)])
      else (0, [])

/-- Model of `update_pptx_dates_in_folder` over the items of the folder (the current
datetime is passed as day number `now`; the target label is
`today_slide_date(prefer_sept_with_t=True)`). -/
def update_pptx_dates_in_folder (env : PptxEnv) (now : Int) (items : List DriveItem) :
    Nat × List (String × List Nat) :=
  let target_label := today_slide_date true now
  let go : List DriveItem → Nat × List (String × List Nat) :=
    fun l => l.foldr
      (fun it acc =>
        let r :=
          if it.file && lowerEndsWithPptx (it.name.getD "") then
            processPptxItem env target_label it
          else (0, [])
        (r.1 + acc.1, r.2 ++ acc.2))
      (0, [])
  go items

/-! ## `upload_item_bytes` (chunked upload session)

The upload session creation (`gpost … createUploadSession`) is an oracle; a
sent chunk is recorded as its `Content-Range` numbers
(`bytes rangeStart-rangeEnd/total`) and payload, and each `PUT`'s status is
given by an oracle over the chunk. -/

/-- One sent chunk: the `Content-Range` header fields and the body. -/
structure UploadChunk where
  rangeStart : Nat
  rangeEnd : Nat
  total : Nat
  payload : List Nat
deriving DecidableEq

/-- The chunk size: `5 * 1024 * 1024`. -/
def UPLOAD_CHUNK_SIZE : Nat := 5 * 1024 * 1024

/-- The upload `while i < size` loop; fuel-driven (fuel `size` suffices since
every chunk is nonempty). -/
def uploadGo (put : UploadChunk → Nat) (data : List Nat) (size : Nat) :
    Nat → Nat → Except String (List UploadChunk)
  | _, 0 => .ok []
  | i, fuel + 1 =>
    if i < size then
      let j := min (i + UPLOAD_CHUNK_SIZE) size
      let c : UploadChunk :=
        { rangeStart := i, rangeEnd := j - 1, total := size,
          payload := (data.drop i).take (j - i) }
      let st := put c
      if st = 200 || st = 201 || st = 202 then
        (uploadGo put data size j fuel).map (fun cs => c :: cs)
      else .error ("Upload chunk failed " ++ toString st)
    else .ok []

/-- Model of `upload_item_bytes(token, drive_id, item_id, data)`: create the session,
then send the chunks.  Returns the list of chunks sent. -/
def upload_item_bytes (sess : Except String String) (put : UploadChunk → Nat)
    (data : List Nat) : Except String (List UploadChunk) :=
  match sess with
  | .error e => .error e
  | .ok _ => uploadGo put data data.length 0 data.length

/-- The chunk sequence of a successful upload (all `PUT`s accepted). -/
def uploadChunksOf (data : List Nat) : List UploadChunk :=
  match uploadGo (fun _ => 200) data data.length 0 data.length with
  | .ok cs => cs
  | .error _ => []

/-! ## `main` orchestration skeleton

`main` is embedded as a function of the environment-variable table and a
world of remote-call oracles.  It returns the run outcome and the list of
remote interactions performed, in order — the observable needed to settle
the claims about configuration-failure ordering.  Each listed event stands
for at least one HTTP request of the corresponding source step. -/

/-- Model of `require_env`: missing or empty (falsy) values raise. -/
def require_env (env : String → Option String) (name : String) : Except String String :=
  match env name with
  | some v => if v = "" then .error ("Missing required environment variable: " ++ name) else .ok v
  | none => .error ("Missing required environment variable: " ++ name)

/-- Remote-call oracles consumed by `main`, in source order.  `now` is the
current datetime (day number).  `renameResp` gives, per item id, the rename
oracle; `childrenAt` is the polled children listing of the parent folder;
`folderChildren` the listing of the freshly copied folder. -/
structure MainWorld where
  now : Int
  token : Except String String
  siteId : Except String String
  driveId : Except String String
  sourceItem : Except String DriveItem
  copyStatus : Nat
  childrenAt : Nat → List DriveItem
  folderChildren : List DriveItem
  renameResp : String → String → HttpResp
  pptx : PptxEnv
  itemFields : Except String (String × String)
  sendMail : Except String Unit

/-- The rename loop of `main` over the new folder's children: files whose
name would change are renamed with collision retry; the events record the
renames attempted, and any raise aborts. -/
def renameAll (w : MainWorld) (filePref : String) :
    List DriveItem → Except String Unit × List String
  | [] => (.ok (), [])
  | it :: rest =>
    if it.file then
      match it.name with
      | none => (.error "KeyError: name", [])
      | some orig =>
        let nn := build_new_filename orig filePref
        if nn ≠ orig then
          match rename_item_with_collision_retry (w.renameResp it.id) nn rename_max_tries_default with
          | .error e => (.error e, ["rename:" ++ orig])
          | .ok _ =>
            let r := renameAll w filePref rest
            (r.1, ("rename:" ++ orig) :: r.2)
        else renameAll w filePref rest
    else renameAll w filePref rest

/-- The remote phase of `main` (everything after the seven initial
`require_env` reads), producing the outcome and the ordered remote events. -/
def mainRemote (w : MainWorld) (env : String → Option String)
    (new_folder_name filePref : String) : Except String Unit × List String :=
  let ev := ["acquire_token"]
  match w.token with
  | .error e => (.error e, ev)
  | .ok _ =>
  let ev := ev ++ ["resolve_site"]
  match w.siteId with
  | .error e => (.error e, ev)
  | .ok _ =>
  let ev := ev ++ ["find_drive"]
  match w.driveId with
  | .error e => (.error e, ev)
  | .ok _ =>
  let ev := ev ++ ["get_item_by_path"]
  match w.sourceItem with
  | .error e => (.error e, ev)
  | .ok src =>
  if src.folder = false then (.error "SP_SOURCE_FOLDER_PATH is not a folder.", ev)
  else
  let ev := ev ++ ["copy_folder"]
  if w.copyStatus = 200 || w.copyStatus = 201 || w.copyStatus = 202 then
    let ev := ev ++ ["poll_children"]
    match poll_until_child_exists w.childrenAt new_folder_name 1200 4 with
    | .error e => (.error e, ev)
    | .ok _newFolder =>
    let ev := ev ++ ["list_children"]
    let rr := renameAll w filePref w.folderChildren
    let ev := ev ++ rr.2
    match rr.1 with
    | .error e => (.error e, ev)
    | .ok _ =>
    let ev := ev ++ ["update_pptx"]
    let _updated := update_pptx_dates_in_folder w.pptx w.now w.folderChildren
    match require_env env "MAIL_SENDER_UPN" with
    | .error e => (.error e, ev)
    | .ok _sender =>
    match require_env env "MAIL_TO" with
    | .error e => (.error e, ev)
    | .ok _to =>
    let _cc := (env "MAIL_CC").getD ""
    let _bcc := (env "MAIL_BCC").getD ""
    let ev := ev ++ ["get_item_fields"]
    match w.itemFields with
    | .error e => (.error e, ev)
    | .ok _meta =>
    let ev := ev ++ ["send_mail"]
    match w.sendMail with
    | .error e => (.error e, ev)
    | .ok _ => (.ok (), ev)
  else (.error ("POST copy -> " ++ toString w.copyStatus), ev)

/-- Model of `main()`: the seven required settings are read first (failing fast with
no remote event); then the remote phase runs. -/
def mainRun (w : MainWorld) (env : String → Option String) :
    Except String Unit × List String :=
  match require_env env "TENANT_ID" with
  | .error e => (.error e, [])
  | .ok _ =>
  match require_env env "CLIENT_ID" with
  | .error e => (.error e, [])
  | .ok _ =>
  match require_env env "CLIENT_SECRET" with
  | .error e => (.error e, [])
  | .ok _ =>
  match require_env env "SP_HOSTNAME" with
  | .error e => (.error e, [])
  | .ok _ =>
  match require_env env "SP_SITE_PATH" with
  | .error e => (.error e, [])
  | .ok _ =>
  match require_env env "SP_LIBRARY_NAME" with
  | .error e => (.error e, [])
  | .ok _ =>
  match require_env env "SP_SOURCE_FOLDER_PATH" with
  | .error e => (.error e, [])
  | .ok _ =>
  let fp := today_strings w.now
  mainRemote w env fp.1 fp.2

/-! ## Derived observers and fixtures used by the theorems -/

/-- Model of `subnGo` with canonical (sufficient) fuel, from a given boundary state. -/
def subnFrom (pat : WEPat) (label : List Char) (prevW : Bool) (l : List Char) :
    List Char × Nat :=
  subnGo pat label (l.length + 1) prevW l

/-- Concatenation of the payloads of a chunk sequence. -/
def chunksJoin (cs : List UploadChunk) : List Nat :=
  (cs.map UploadChunk.payload).flatten

/-- Spec-side coverage predicate (from the claim's words): starting at offset
`i`, the chunks are contiguous, in increasing order, non-overlapping, each
nonempty, of at most the chunk size, with `total = size` and a payload of the
advertised length, and they end exactly at `size`. -/
def chunksCover (size : Nat) : Nat → List UploadChunk → Prop
  | i, [] => i = size
  | i, ch :: cs =>
    ch.rangeStart = i ∧ i ≤ ch.rangeEnd ∧ ch.rangeEnd < size ∧
    ch.rangeEnd + 1 - i ≤ UPLOAD_CHUNK_SIZE ∧ ch.total = size ∧
    ch.payload.length = ch.rangeEnd + 1 - i ∧
    chunksCover size (ch.rangeEnd + 1) cs

/-- The part of a filename's stem that `build_new_filename` carries over:
the `PREFIX_RE` rest capture when the stem matches, the whole stem
otherwise. -/
def stemRest (name : String) : List Char :=
  match PREFIX_RE_match (splitext name.toList).1 with
  | some g => g.2.2
  | none => (splitext name.toList).1

/-- The seven settings `main` reads before any remote call. -/
def sevenRequired : List String :=
  ["TENANT_ID", "CLIENT_ID", "CLIENT_SECRET", "SP_HOSTNAME",
   "SP_SITE_PATH", "SP_LIBRARY_NAME", "SP_SOURCE_FOLDER_PATH"]

/-- Fixture: a rename oracle that always reports a name collision. -/
def collideResp : String → HttpResp := fun _ => { status := 409, name := none }

/-- Fixture: a pptx environment whose downloads fail. -/
def failingPptxEnv : PptxEnv :=
  { parse := fun _ => .error "bad zip", save := fun _ => [],
    download := fun _ => .error "download failed", upload := fun _ _ => .ok () }

/-- Fixture: a run, paragraph, shape, slide and presentation carrying a plain
title with no date label. -/
def plainRun : PRun :=
  { text := "Project Updates", fontName := some "Arial", fontSize := some (Pt 24) }

/-- Fixture: the paragraph of `plainRun`. -/
def plainPar : PParagraph :=
  { runs := [plainRun], alignment := some 1, level := 0 }

/-- Fixture: the shape of `plainPar`. -/
def plainShape : PShape :=
  { text_frame := some [plainPar] }

/-- Fixture: a one-slide presentation containing only `plainShape`. -/
def plainPrs : Prs :=
  { slides := [{ shapes := [plainShape] }] }

/-- Fixture: the environment table of the configuration counterexample — the
seven SharePoint settings present, the mail settings absent. -/
def env0 : String → Option String := fun n =>
  if n ∈ sevenRequired then some "x" else none

/-- Fixture: environment with all required settings present and `MAIL_CC` /
`MAIL_BCC` absent. -/
def env1 : String → Option String := fun n =>
  if n ∈ sevenRequired || n = "MAIL_SENDER_UPN" || n = "MAIL_TO" then some "x" else none

/-- Fixture: the copied folder, as it appears in the parent's children list
for `now = 0` (next Friday = 1970-01-02). -/
def copiedFolder0 : DriveItem :=
  { id := "new", name := some "W.E. Jan 02 1970", file := false, folder := true, parentId := "par" }

/-- Fixture: a happy-path world for `now = 0`: every remote call succeeds,
the copied folder appears at the first poll, and the new folder is empty. -/
def world0 : MainWorld :=
  { now := 0, token := .ok "t", siteId := .ok "s", driveId := .ok "d",
    sourceItem := .ok { id := "src", name := some "W.E. Sept 5 2025",
                        file := false, folder := true, parentId := "par" },
    copyStatus := 202,
    childrenAt := fun _ => [copiedFolder0],
    folderChildren := [],
    renameResp := fun _ _ => { status := 200, name := none },
    pptx := failingPptxEnv, itemFields := .ok ("n", "u"), sendMail := .ok () }

/-- Fixture: remote events of the counterexample run (everything up to the
late `MAIL_SENDER_UPN` read). -/
def eventsBeforeMail : List String :=
  ["acquire_token", "resolve_site", "find_drive", "get_item_by_path",
   "copy_folder", "poll_children", "list_children", "update_pptx"]

/-! # Theorems -/

/-! ## Claim C1: `_next_friday` -/

/-- C1: for every input datetime, `_next_friday` returns a datetime whose
weekday is Friday and that is strictly later than the input; when the input
already falls on a Friday the result is the Friday of the following week
(7 days later), never the same day. -/
theorem claim_C1_next_friday (d : Int) :
    pyWeekday (_next_friday d) = 4 ∧ d < _next_friday d ∧
      (pyWeekday d = 4 → _next_friday d = d + 7) := by
  unfold _next_friday pyWeekday
  dsimp only
  split_ifs with h <;> refine ⟨?_, ?_, ?_⟩ <;> omega

/-- Witness for C1 at the concrete Friday 1970-01-02 (day 1). -/
theorem claim_C1_next_friday_witness :
    pyWeekday (_next_friday 1) = 4 ∧ (1 : Int) < _next_friday 1 ∧
      (pyWeekday 1 = 4 → _next_friday 1 = 1 + 7) :=
  claim_C1_next_friday 1

/-! ## Claim C10: `upload_item_bytes` -/

theorem uploadGo_const_put (put : UploadChunk → Nat) (data : List Nat) (size : Nat)
    (hput : ∀ ch, put ch = 200 ∨ put ch = 201 ∨ put ch = 202) :
    ∀ fuel i, uploadGo put data size i fuel = uploadGo (fun _ => 200) data size i fuel := by
  intro fuel
  induction fuel with
  | zero => intro i; rfl
  | succ n ih =>
    intro i
    unfold uploadGo
    dsimp only
    by_cases h : i < size
    · simp only [h, if_true]
      rcases hput ⟨i, min (i + UPLOAD_CHUNK_SIZE) size - 1, size, (data.drop i).take (min (i + UPLOAD_CHUNK_SIZE) size - i)⟩ with hc | hc | hc <;>
        simp [hc, ih]
    · simp [h]

theorem uploadGo_ok_spec (data : List Nat) :
    ∀ fuel i, i ≤ data.length → data.length - i ≤ fuel →
      ∃ cs, uploadGo (fun _ => 200) data data.length i fuel = .ok cs ∧
        chunksCover data.length i cs ∧ chunksJoin cs = data.drop i := by
  intro fuel
  induction fuel with
  | zero =>
    intro i hi hf
    have hie : i = data.length := by omega
    refine ⟨[], rfl, ?_, ?_⟩
    · simpa [chunksCover] using hie
    · simp [chunksJoin, hie]
  | succ n ih =>
    intro i hi hf
    by_cases h : i < data.length
    · have hC : 0 < UPLOAD_CHUNK_SIZE := by norm_num [UPLOAD_CHUNK_SIZE]
      set j := min (i + UPLOAD_CHUNK_SIZE) data.length with hjdef
      have hj1 : i + 1 ≤ j := by rw [hjdef]; simp only [Nat.le_min]; omega
      have hj2 : j ≤ data.length := by rw [hjdef]; exact Nat.min_le_right _ _
      have hj3 : j ≤ i + UPLOAD_CHUNK_SIZE := by rw [hjdef]; exact Nat.min_le_left _ _
      obtain ⟨cs, hcs, hcov, hjoin⟩ := ih j (by omega) (by omega)
      refine ⟨(⟨i, j - 1, data.length, (data.drop i).take (j - i)⟩ : UploadChunk) :: cs, ?_, ?_, ?_⟩
      · unfold uploadGo
        rw [← hjdef]
        simp [h, hcs, Except.map]
      · refine ⟨rfl, by dsimp only; omega, by dsimp only; omega, by dsimp only; omega, rfl, ?_, ?_⟩
        · dsimp only
          simp only [List.length_take, List.length_drop]
          omega
        · dsimp only
          have hj4 : j - 1 + 1 = j := by omega
          rw [hj4]
          exact hcov
      · have hdd : data.drop j = (data.drop i).drop (j - i) := by
          rw [List.drop_drop]
          congr 1
          omega
        have hkey : (data.drop i).take (j - i) ++ chunksJoin cs = data.drop i := by
          rw [hjoin, hdd, List.take_append_drop]
        simpa [chunksJoin] using hkey
    · have hie : i = data.length := by omega
      refine ⟨[], ?_, ?_, ?_⟩
      · unfold uploadGo
        simp [h]
      · simpa [chunksCover] using hie
      · simp [chunksJoin, hie]

/-- C10: `upload_item_bytes` sends the data as contiguous, increasing,
non-overlapping chunks of at most 5 MiB whose `Content-Range`s cover bytes
`0 .. size-1` exactly and whose payloads concatenate to the data; empty data
creates the session but sends zero chunks; a failed session creation
propagates. -/
theorem claim_C10_upload_chunks (sess : Except String String)
    (put : UploadChunk → Nat) (data : List Nat) :
    ((∃ s, sess = .ok s) → (∀ ch, put ch = 200 ∨ put ch = 201 ∨ put ch = 202) →
      upload_item_bytes sess put data = .ok (uploadChunksOf data) ∧
      chunksCover data.length 0 (uploadChunksOf data) ∧
      chunksJoin (uploadChunksOf data) = data ∧
      (data = [] → uploadChunksOf data = [])) ∧
    (∀ e, sess = .error e → upload_item_bytes sess put data = .error e) := by
  constructor
  · rintro ⟨s, rfl⟩ hput
    obtain ⟨cs, hcs, hcov, hjoin⟩ := uploadGo_ok_spec data data.length 0 (by omega) (by omega)
    have hchunks : uploadChunksOf data = cs := by
      unfold uploadChunksOf
      rw [hcs]
    have hrun : upload_item_bytes (.ok s) put data = .ok cs := by
      unfold upload_item_bytes
      rw [uploadGo_const_put put data data.length hput, hcs]
    refine ⟨by rw [hchunks]; exact hrun, by rw [hchunks]; exact hcov,
      by rw [hchunks]; simpa using hjoin, ?_⟩
    rintro rfl
    rfl
  · rintro e rfl
    rfl

/-- Witness for C10 at `data = [1, 2, 3]` with an accepting oracle. -/
theorem claim_C10_upload_chunks_witness :
    upload_item_bytes (.ok "u") (fun _ => 200) [1, 2, 3] = .ok (uploadChunksOf [1, 2, 3]) ∧
    chunksCover 3 0 (uploadChunksOf [1, 2, 3]) ∧
    chunksJoin (uploadChunksOf [1, 2, 3]) = [1, 2, 3] ∧
    (([1, 2, 3] : List Nat) = [] → uploadChunksOf [1, 2, 3] = []) :=
  (claim_C10_upload_chunks (.ok "u") (fun _ => 200) [1, 2, 3]).1
    ⟨"u", rfl⟩ (fun _ => Or.inl rfl)

/-! ## Claim C8: `poll_until_child_exists` -/

theorem pollGo_timeout (children : Nat → List DriveItem) (name : String)
    (timeout_s poll_s : Nat)
    (h : ∀ j, j * poll_s < timeout_s → find_child_by_name (children j) name = none) :
    ∀ fuel k, pollGo children name timeout_s poll_s k fuel = .error (pollTimeoutMsg name timeout_s) := by
  intro fuel
  induction fuel with
  | zero => intro k; rfl
  | succ n ih =>
    intro k
    unfold pollGo
    by_cases hk : k * poll_s < timeout_s
    · simp [hk, h k hk, ih]
    · simp [hk]

theorem pollGo_finds (children : Nat → List DriveItem) (name : String)
    (timeout_s poll_s : Nat) (_hp : 0 < poll_s) (k0 : Nat) (c : DriveItem)
    (hbefore : ∀ j, j < k0 → find_child_by_name (children j) name = none)
    (hfound : find_child_by_name (children k0) name = some c)
    (hin : k0 * poll_s < timeout_s) :
    ∀ fuel k, k ≤ k0 → k0 - k < fuel →
      pollGo children name timeout_s poll_s k fuel = .ok c := by
  intro fuel
  induction fuel with
  | zero => intro k _ hf; omega
  | succ n ih =>
    intro k hk hf
    unfold pollGo
    by_cases he : k = k0
    · subst he
      simp [hin, hfound]
    · have hklt : k < k0 := by omega
      have hcond : k * poll_s < timeout_s := by
        have : k * poll_s ≤ k0 * poll_s := Nat.mul_le_mul_right _ (by omega)
        omega
      simp [hcond, hbefore k hklt]
      exact ih (k + 1) (by omega) (by omega)

/-- C8: with a positive poll interval, `poll_until_child_exists` polls the
children oracle at the idealised times `0, poll_s, 2·poll_s, …`; it returns
the matching child found by the first poll that sees one (within the
timeout), and raises the timeout error when no poll within the timeout ever
sees a child of that name. -/
theorem claim_C8_poll (children : Nat → List DriveItem) (name : String)
    (timeout_s poll_s : Nat) (hp : 0 < poll_s) :
    (∀ k0 c, (∀ j, j < k0 → find_child_by_name (children j) name = none) →
      find_child_by_name (children k0) name = some c → k0 * poll_s < timeout_s →
      poll_until_child_exists children name timeout_s poll_s = .ok c) ∧
    ((∀ k, k * poll_s < timeout_s → find_child_by_name (children k) name = none) →
      poll_until_child_exists children name timeout_s poll_s =
        .error (pollTimeoutMsg name timeout_s)) := by
  constructor
  · intro k0 c hbefore hfound hin
    unfold poll_until_child_exists
    have hk0 : k0 ≤ k0 * poll_s := Nat.le_mul_of_pos_right _ hp
    exact pollGo_finds children name timeout_s poll_s hp k0 c hbefore hfound hin
      (timeout_s + 1) 0 (by omega) (by omega)
  · intro hnone
    unfold poll_until_child_exists
    exact pollGo_timeout children name timeout_s poll_s hnone (timeout_s + 1) 0

/-- Witness for C8: the child appears at the second poll of a 10 s window
with 4 s interval. -/
theorem claim_C8_poll_witness :
    poll_until_child_exists
      (fun k => if k = 1 then [copiedFolder0] else []) "W.E. Jan 02 1970" 10 4 =
      .ok copiedFolder0 := by
  refine (claim_C8_poll (fun k => if k = 1 then [copiedFolder0] else [])
    "W.E. Jan 02 1970" 10 4 (by decide)).1 1 copiedFolder0 ?_ ?_ ?_
  · intro j hj
    interval_cases j
    rfl
  · rfl
  · decide

/-! ## Claim C4: `rename_item_with_collision_retry` -/

theorem renameGo_all_collide (resp : String → HttpResp) (base ext : String)
    (maxTries : Nat)
    (h : ∀ n, n < maxTries → (resp (renameCandidate base ext n)).status = 409) :
    ∀ rem n, n + rem = maxTries →
      renameGo resp base ext maxTries n rem =
        .error ("Could not rename after " ++ toString maxTries ++ " attempts.") := by
  intro rem
  induction rem with
  | zero => intro n _; rfl
  | succ m ih =>
    intro n hn
    have h409 := h n (by omega)
    unfold renameGo
    have hok : respOk (resp (renameCandidate base ext n)) = false := by
      unfold respOk
      simp [h409]
    simp [hok, h409]
    exact ih (n + 1) (by omega)

theorem renameGo_first_ok (resp : String → HttpResp) (base ext : String)
    (maxTries k : Nat)
    (hbefore : ∀ i, i < k → (resp (renameCandidate base ext i)).status = 409)
    (hk : respOk (resp (renameCandidate base ext k)) = true) :
    ∀ rem n, n ≤ k → n + rem = maxTries → k < maxTries →
      renameGo resp base ext maxTries n rem =
        .ok ((resp (renameCandidate base ext k)).name.getD (renameCandidate base ext k)) := by
  intro rem
  induction rem with
  | zero => intro n hn hrem hklt; omega
  | succ m ih =>
    intro n hn hrem hklt
    unfold renameGo
    by_cases he : n = k
    · subst he
      simp [hk]
    · have hlt : n < k := by omega
      have h409 := hbefore n hlt
      have hok : respOk (resp (renameCandidate base ext n)) = false := by
        unfold respOk
        simp [h409]
      simp [hok, h409]
      exact ih (n + 1) (by omega) (by omega) hklt

theorem renameGo_first_fatal (resp : String → HttpResp) (base ext : String)
    (maxTries k : Nat)
    (hbefore : ∀ i, i < k → (resp (renameCandidate base ext i)).status = 409)
    (hk : respOk (resp (renameCandidate base ext k)) = false)
    (hst : (resp (renameCandidate base ext k)).status ≠ 409) :
    ∀ rem n, n ≤ k → n + rem = maxTries → k < maxTries →
      renameGo resp base ext maxTries n rem =
        .error ("PATCH rename -> " ++ toString (resp (renameCandidate base ext k)).status) := by
  intro rem
  induction rem with
  | zero => intro n hn hrem hklt; omega
  | succ m ih =>
    intro n hn hrem hklt
    unfold renameGo
    by_cases he : n = k
    · subst he
      simp [hk, hst]
    · have hlt : n < k := by omega
      have h409 := hbefore n hlt
      have hok : respOk (resp (renameCandidate base ext n)) = false := by
        unfold respOk
        simp [h409]
      simp [hok, h409]
      exact ih (n + 1) (by omega) (by omega) hklt

/-- C4: `rename_item_with_collision_retry` tries the candidates
`base{ext}`, `base (1){ext}`, `base (2){ext}`, … in that order (strictly
increasing suffix index), retries only on HTTP 409 responses, raises the
terminal "could not rename" error after `max_tries` (default 5) exhausted
collisions, returns the applied name on the first success, and raises
immediately on the first non-collision error status. -/
theorem claim_C4_rename_retry (resp : String → HttpResp) (new_name : String)
    (maxTries : Nat) :
    rename_max_tries_default = 5 ∧
    (∀ n, renameCandidate (String.mk (splitext new_name.toList).1)
        (String.mk (splitext new_name.toList).2) n =
      String.mk (splitext new_name.toList).1 ++
        (if n = 0 then "" else " (" ++ toString n ++ ")") ++
        String.mk (splitext new_name.toList).2) ∧
    ((∀ n, n < maxTries →
        (resp (renameCandidate (String.mk (splitext new_name.toList).1)
          (String.mk (splitext new_name.toList).2) n)).status = 409) →
      rename_item_with_collision_retry resp new_name maxTries =
        .error ("Could not rename after " ++ toString maxTries ++ " attempts.")) ∧
    (∀ k, k < maxTries →
      (∀ i, i < k → (resp (renameCandidate (String.mk (splitext new_name.toList).1)
          (String.mk (splitext new_name.toList).2) i)).status = 409) →
      (respOk (resp (renameCandidate (String.mk (splitext new_name.toList).1)
          (String.mk (splitext new_name.toList).2) k)) = true →
        rename_item_with_collision_retry resp new_name maxTries =
          .ok ((resp (renameCandidate (String.mk (splitext new_name.toList).1)
            (String.mk (splitext new_name.toList).2) k)).name.getD
              (renameCandidate (String.mk (splitext new_name.toList).1)
                (String.mk (splitext new_name.toList).2) k))) ∧
      (respOk (resp (renameCandidate (String.mk (splitext new_name.toList).1)
          (String.mk (splitext new_name.toList).2) k)) = false →
        (resp (renameCandidate (String.mk (splitext new_name.toList).1)
          (String.mk (splitext new_name.toList).2) k)).status ≠ 409 →
        rename_item_with_collision_retry resp new_name maxTries =
          .error ("PATCH rename -> " ++ toString (resp (renameCandidate
            (String.mk (splitext new_name.toList).1)
            (String.mk (splitext new_name.toList).2) k)).status))) := by
  refine ⟨rfl, fun n => rfl, ?_, ?_⟩
  · intro h
    unfold rename_item_with_collision_retry
    exact renameGo_all_collide resp _ _ maxTries h maxTries 0 (by omega)
  · intro k hklt hbefore
    constructor
    · intro hok
      unfold rename_item_with_collision_retry
      exact renameGo_first_ok resp _ _ maxTries k hbefore hok maxTries 0 (by omega)
        (by omega) hklt
    · intro hok hst
      unfold rename_item_with_collision_retry
      exact renameGo_first_fatal resp _ _ maxTries k hbefore hok hst maxTries 0 (by omega)
        (by omega) hklt

/-- Witness for C4: with an always-colliding oracle and two tries, the
terminal error is raised. -/
theorem claim_C4_rename_retry_witness :
    rename_item_with_collision_retry collideResp "a.txt" 2 =
      .error ("Could not rename after " ++ toString 2 ++ " attempts.") :=
  (claim_C4_rename_retry collideResp "a.txt" 2).2.2.1 (fun _ _ => rfl)

/-! ## Claims C9 and C3: the pptx folder pass -/

theorem folder_cons (env : PptxEnv) (now : Int) (it : DriveItem) (rest : List DriveItem) :
    update_pptx_dates_in_folder env now (it :: rest) =
      ((if it.file && lowerEndsWithPptx (it.name.getD "") then
          processPptxItem env (today_slide_date true now) it else (0, [])).1 +
        (update_pptx_dates_in_folder env now rest).1,
       (if it.file && lowerEndsWithPptx (it.name.getD "") then
          processPptxItem env (today_slide_date true now) it else (0, [])).2 ++
        (update_pptx_dates_in_folder env now rest).2) := rfl

theorem folder_append (env : PptxEnv) (now : Int) :
    ∀ xs ys : List DriveItem,
      update_pptx_dates_in_folder env now (xs ++ ys) =
        ((update_pptx_dates_in_folder env now xs).1 +
           (update_pptx_dates_in_folder env now ys).1,
         (update_pptx_dates_in_folder env now xs).2 ++
           (update_pptx_dates_in_folder env now ys).2) := by
  intro xs ys
  induction xs with
  | nil => simp [update_pptx_dates_in_folder]
  | cons x xs ih =>
    rw [List.cons_append, folder_cons, folder_cons, ih]
    refine Prod.ext ?_ ?_
    · simp [Nat.add_assoc]
    · simp

/-- C9: a failure while patching one file (failed download, failed
parse/edit, or failed re-upload) contributes nothing to the `updated`
counter, and the folder pass still processes every other file: the run over
`xs ++ [it] ++ ys` equals the combination of the runs over `xs` and `ys`,
with at most the failed upload attempt of `it` in between. -/
theorem claim_C9_per_file_failure (env : PptxEnv) (now : Int)
    (xs ys : List DriveItem) (it : DriveItem)
    (hfile : it.file = true) (hpptx : lowerEndsWithPptx (it.name.getD "") = true)
    (hfail :
      (∃ e, env.download it.id = .error e) ∨
      (∃ b e, env.download it.id = .ok b ∧
        update_pptx_first_slide_date env.parse env.save b (today_slide_date true now) =
          .error e) ∨
      (∃ b nb e, env.download it.id = .ok b ∧
        update_pptx_first_slide_date env.parse env.save b (today_slide_date true now) =
          .ok (nb, true) ∧
        env.upload it.id nb = .error e)) :
    (processPptxItem env (today_slide_date true now) it).1 = 0 ∧
    update_pptx_dates_in_folder env now (xs ++ it :: ys) =
      ((update_pptx_dates_in_folder env now xs).1 +
         (update_pptx_dates_in_folder env now ys).1,
       (update_pptx_dates_in_folder env now xs).2 ++
         (processPptxItem env (today_slide_date true now) it).2 ++
         (update_pptx_dates_in_folder env now ys).2) := by
  have hzero : (processPptxItem env (today_slide_date true now) it).1 = 0 := by
    rcases hfail with ⟨e, he⟩ | ⟨b, e, hb, he⟩ | ⟨b, nb, e, hb, hu, he⟩
    · unfold processPptxItem
      simp [he]
    · unfold processPptxItem
      simp [hb, he]
    · unfold processPptxItem
      simp [hb, hu, he]
  refine ⟨hzero, ?_⟩
  rw [folder_append, folder_cons]
  have hfilter : (it.file && lowerEndsWithPptx (it.name.getD "")) = true := by
    rw [hfile, hpptx]
    rfl
  rw [hfilter]
  simp only [if_true]
  refine Prod.ext ?_ ?_
  · simp [hzero]
  · simp [List.append_assoc]

/-- Witness for C9: one file whose download fails, between two empty
sublists. -/
theorem claim_C9_per_file_failure_witness :
    (processPptxItem failingPptxEnv (today_slide_date true 0)
        { id := "i", name := some "x.pptx", file := true, folder := false, parentId := "p" }).1 = 0 ∧
    update_pptx_dates_in_folder failingPptxEnv 0
        ([] ++ { id := "i", name := some "x.pptx", file := true, folder := false, parentId := "p" } :: []) =
      ((update_pptx_dates_in_folder failingPptxEnv 0 []).1 +
         (update_pptx_dates_in_folder failingPptxEnv 0 []).1,
       (update_pptx_dates_in_folder failingPptxEnv 0 []).2 ++
         (processPptxItem failingPptxEnv (today_slide_date true 0)
           { id := "i", name := some "x.pptx", file := true, folder := false, parentId := "p" }).2 ++
         (update_pptx_dates_in_folder failingPptxEnv 0 []).2) :=
  claim_C9_per_file_failure failingPptxEnv 0 [] []
    { id := "i", name := some "x.pptx", file := true, folder := false, parentId := "p" }
    rfl (by decide) (Or.inl ⟨"download failed", rfl⟩)

/-- C3: a presentation whose first slide has no text shape with a matching
date label (including zero-slide presentations) is returned byte-identical
with `changed = False` by `update_pptx_first_slide_date`, and the folder
pass then performs no upload for that file. -/
theorem claim_C3_unchanged_not_reuploaded :
    (∀ (parse : List Nat → Except String Prs) (save : Prs → List Nat)
        (b : List Nat) (label : String) (prs : Prs),
      parse b = .ok prs →
      (∀ s ss, prs.slides = s :: ss → ∀ sh ∈ s.shapes, ∀ tf, sh.text_frame = some tf →
        (replace_week_ending_text (textFrameText tf) label).2 = false) →
      update_pptx_first_slide_date parse save b label = .ok (b, false)) ∧
    (∀ (env : PptxEnv) (now : Int) (it : DriveItem) (b : List Nat),
      it.file = true → lowerEndsWithPptx (it.name.getD "") = true →
      env.download it.id = .ok b →
      update_pptx_first_slide_date env.parse env.save b (today_slide_date true now) =
        .ok (b, false) →
      processPptxItem env (today_slide_date true now) it = (0, [])) := by
  constructor
  · intro parse save b label prs hp hns
    unfold update_pptx_first_slide_date
    rw [hp]
    cases hsl : prs.slides with
    | nil => simp [hsl]
    | cons s ss =>
      have hall : (s.shapes.map (patchShape label)).any (fun r => r.2) = false := by
        rw [List.any_eq_false]
        intro x hx
        rw [List.mem_map] at hx
        obtain ⟨sh, hsh, rfl⟩ := hx
        unfold patchShape
        cases htf : sh.text_frame with
        | none => simp
        | some tf =>
          have hc := hns s ss hsl sh hsh tf htf
          simp [hc]
      simp [hsl, hall]
  · intro env now it b hfile hpptx hdl hupd
    unfold processPptxItem
    simp [hdl, hupd]

/-- Witness for C3: a one-slide presentation with a plain title and no date
label is returned unchanged, and the corresponding folder item is not
re-uploaded. -/
theorem claim_C3_unchanged_not_reuploaded_witness :
    update_pptx_first_slide_date (fun _ => .ok plainPrs) (fun _ => []) [7, 7]
        "12 Sept 2025" = .ok ([7, 7], false) ∧
    processPptxItem
      { parse := fun _ => .ok plainPrs, save := fun _ => [],
        download := fun _ => .ok [7, 7], upload := fun _ _ => .ok () }
      (today_slide_date true 0)
      { id := "i", name := some "x.pptx", file := true, folder := false, parentId := "p" } =
      (0, []) := by
  constructor
  · refine claim_C3_unchanged_not_reuploaded.1 (fun _ => .ok plainPrs) (fun _ => [])
      [7, 7] "12 Sept 2025" plainPrs rfl ?_
    intro s ss hs sh hsh tf htf
    have hs' : s = { shapes := [plainShape] } := by
      have : plainPrs.slides = [{ shapes := [plainShape] }] := rfl
      rw [this] at hs
      exact (List.cons.injEq _ _ _ _ ▸ hs).1.symm
    subst hs'
    have hsh' : sh = plainShape := by
      simpa using hsh
    subst hsh'
    have htf' : tf = [plainPar] := by
      have : plainShape.text_frame = some [plainPar] := rfl
      rw [this] at htf
      exact (Option.some.injEq _ _ ▸ htf).symm
    subst htf'
    decide
  · refine claim_C3_unchanged_not_reuploaded.2 _ 0 _ [7, 7] rfl (by decide) rfl ?_
    refine claim_C3_unchanged_not_reuploaded.1 (fun _ => .ok plainPrs) (fun _ => [])
      [7, 7] (today_slide_date true 0) plainPrs rfl ?_
    intro s ss hs sh hsh tf htf
    have hs' : s = { shapes := [plainShape] } := by
      have : plainPrs.slides = [{ shapes := [plainShape] }] := rfl
      rw [this] at hs
      exact (List.cons.injEq _ _ _ _ ▸ hs).1.symm
    subst hs'
    have hsh' : sh = plainShape := by
      simpa using hsh
    subst hsh'
    have htf' : tf = [plainPar] := by
      have : plainShape.text_frame = some [plainPar] := rfl
      rw [this] at htf
      exact (Option.some.injEq _ _ ▸ htf).symm
    subst htf'
    decide

/-! ## Claim C2: `build_new_filename` — helper lemmas -/

theorem not_space_of_digit {c : Char} (h : isAsciiDigit c = true) : isPySpace c = false := by
  simp only [isAsciiDigit, Bool.and_eq_true, decide_eq_true_eq] at h
  simp only [isPySpace, Bool.or_eq_false_iff, decide_eq_false_iff_not]
  refine ⟨⟨⟨⟨⟨?_, ?_⟩, ?_⟩, ?_⟩, ?_⟩, ?_⟩ <;> rintro rfl <;> revert h <;> decide

theorem not_space_of_letter {c : Char} (h : isAsciiLetter c = true) : isPySpace c = false := by
  simp only [isAsciiLetter, Bool.or_eq_true, Bool.and_eq_true, decide_eq_true_eq] at h
  simp only [isPySpace, Bool.or_eq_false_iff, decide_eq_false_iff_not]
  refine ⟨⟨⟨⟨⟨?_, ?_⟩, ?_⟩, ?_⟩, ?_⟩, ?_⟩ <;> rintro rfl <;> revert h <;>
    rintro (⟨h1, h2⟩ | ⟨h1, h2⟩) <;> revert h1 h2 <;> decide

theorem not_digit_of_letter {c : Char} (h : isAsciiLetter c = true) : isAsciiDigit c = false := by
  simp only [isAsciiLetter, Bool.or_eq_true, Bool.and_eq_true, decide_eq_true_eq] at h
  simp only [isAsciiDigit, Bool.and_eq_false_iff, decide_eq_false_iff_not]
  rcases h with ⟨h1, h2⟩ | ⟨h1, h2⟩
  · right
    intro hc
    have : 'A' ≤ '9' := le_trans h1 hc
    revert this
    decide
  · right
    intro hc
    have : 'a' ≤ '9' := le_trans h1 hc
    revert this
    decide

theorem ne_dot_of_digit {c : Char} (h : isAsciiDigit c = true) : c ≠ '.' := by
  rintro rfl
  revert h
  decide

theorem ne_dot_of_letter {c : Char} (h : isAsciiLetter c = true) : c ≠ '.' := by
  simp only [isAsciiLetter, Bool.or_eq_true, Bool.and_eq_true, decide_eq_true_eq] at h
  rintro rfl
  rcases h with ⟨h1, h2⟩ | ⟨h1, h2⟩ <;> revert h1 h2 <;> decide

theorem ne_slash_of_digit {c : Char} (h : isAsciiDigit c = true) : c ≠ '/' := by
  rintro rfl
  revert h
  decide

theorem ne_slash_of_letter {c : Char} (h : isAsciiLetter c = true) : c ≠ '/' := by
  simp only [isAsciiLetter, Bool.or_eq_true, Bool.and_eq_true, decide_eq_true_eq] at h
  rintro rfl
  rcases h with ⟨h1, h2⟩ | ⟨h1, h2⟩ <;> revert h1 h2 <;> decide

theorem takeWhile_append_of_all {α : Type} (p : α → Bool) (l₁ l₂ : List α)
    (h : ∀ x ∈ l₁, p x = true) :
    (l₁ ++ l₂).takeWhile p = l₁ ++ l₂.takeWhile p := by
  induction l₁ with
  | nil => simp
  | cons a l ih =>
    have ha := h a (by simp)
    simp only [List.cons_append, List.takeWhile_cons, ha, if_true]
    rw [ih (fun x hx => h x (by simp [hx]))]

theorem dropWhile_append_of_all {α : Type} (p : α → Bool) (l₁ l₂ : List α)
    (h : ∀ x ∈ l₁, p x = true) :
    (l₁ ++ l₂).dropWhile p = l₂.dropWhile p := by
  induction l₁ with
  | nil => simp
  | cons a l ih =>
    have ha := h a (by simp)
    simp only [List.cons_append, List.dropWhile_cons, ha, if_true]
    exact ih (fun x hx => h x (by simp [hx]))

theorem rtrimSpaces_decomp (l : List Char) :
    l = rtrimSpaces l ++ (l.reverse.takeWhile isPySpace).reverse ∧
      (∀ c ∈ (l.reverse.takeWhile isPySpace).reverse, isPySpace c = true) := by
  constructor
  · unfold rtrimSpaces
    conv_lhs => rw [← List.reverse_reverse l]
    rw [← List.reverse_append, List.takeWhile_append_dropWhile]
  · intro c hc
    rw [List.mem_reverse] at hc
    exact List.mem_takeWhile_imp hc

theorem rtrimSpaces_eq_self (l : List Char) (c1 : Char)
    (hlast : l.getLast? = some c1) (hns : isPySpace c1 = false) :
    rtrimSpaces l = l := by
  unfold rtrimSpaces
  rw [← List.head?_reverse] at hlast
  cases hr : l.reverse with
  | nil => simp [hr] at hlast
  | cons x xs =>
    rw [hr] at hlast
    have hx : x = c1 := by
      simpa using hlast
    subst hx
    rw [List.dropWhile_cons, hns]
    simp [← hr]

theorem matchOptChar_decomp (ch : Char) (l : List Char) :
    (matchOptChar ch l).1 ++ (matchOptChar ch l).2 = l := by
  unfold matchOptChar
  cases l with
  | nil => rfl
  | cons x t =>
    by_cases hx : x = ch <;> simp [hx]

theorem matchOptChar_fst (ch : Char) (l : List Char) :
    (matchOptChar ch l).1 = [] ∨ (matchOptChar ch l).1 = [ch] := by
  unfold matchOptChar
  cases l with
  | nil => exact Or.inl rfl
  | cons x t =>
    by_cases hx : x = ch <;> simp [hx]

theorem restAfterDash_decomp (t : List Char) (r : List Char)
    (h : restAfterDash t = some r) :
    ∃ x y, t = x ++ r ++ y ∧ (∀ c ∈ y, isPySpace c = true) := by
  unfold restAfterDash at h
  dsimp only at h
  split at h
  · exact absurd h (by simp)
  · split at h
    · next hq =>
      split at h
      · next c hf =>
        have hc : c ∈ t.drop 1 := by
          have := List.mem_of_find?_eq_some hf
          rwa [List.mem_reverse] at this
        have hct : c ∈ t := by
          have hsub := List.drop_subset 1 t
          exact hsub hc
        obtain ⟨s, u, hsu⟩ := List.append_of_mem hct
        have hall : ∀ x ∈ t, isPySpace x = true :=
          List.dropWhile_eq_nil_iff.mp hq
        have hr : r = [c] := by
          have := h
          simp only [Option.some.injEq] at this
          exact this.symm
        refine ⟨s, u, ?_, ?_⟩
        · rw [hsu, hr]
          simp
        · intro x hx
          refine hall x ?_
          rw [hsu]
          simp [hx]
      · exact absurd h (by simp)
    · next hq =>
      split at h
      · exact absurd h (by simp)
      · have hr : r = rtrimSpaces (t.dropWhile isPySpace) := by
          simp only [Option.some.injEq] at h
          exact h.symm
        obtain ⟨hdec, hws⟩ := rtrimSpaces_decomp (t.dropWhile isPySpace)
        refine ⟨t.takeWhile isPySpace,
          ((t.dropWhile isPySpace).reverse.takeWhile isPySpace).reverse, ?_, hws⟩
        rw [hr, List.append_assoc, ← hdec, List.takeWhile_append_dropWhile]

theorem PREFIX_RE_match_decomp (base d mo rest : List Char)
    (h : PREFIX_RE_match base = some (d, mo, rest)) :
    (∃ x y, base = x ++ rest ++ y ∧ ∀ c ∈ y, isPySpace c = true) ∧
    (1 ≤ d.length ∧ d.length ≤ 2 ∧ ∀ c ∈ d, isAsciiDigit c = true) ∧
    (∃ letters dot, mo = letters ++ dot ∧ 3 ≤ letters.length ∧ letters.length ≤ 9 ∧
      (∀ c ∈ letters, isAsciiLetter c = true) ∧ (dot = [] ∨ dot = ['.'])) := by
  unfold PREFIX_RE_match at h
  dsimp only at h
  split at h
  · exact absurd h (by simp)
  · next hlen =>
    split at h
    · exact absurd h (by simp)
    · next hsp =>
      split at h
      · exact absurd h (by simp)
      · next hmo =>
        split at h
        · exact absurd h (by simp)
        · next dash t hdash =>
          split at h
          · next hisdash =>
            rw [Option.map_eq_some'] at h
            obtain ⟨r, hr, heq⟩ := h
            have hd : d = (base.dropWhile isPySpace).takeWhile isAsciiDigit := by
              have := congrArg Prod.fst heq
              simpa using this.symm
            have hmoeq : mo =
                (((base.dropWhile isPySpace).dropWhile isAsciiDigit).dropWhile
                  isPySpace).takeWhile isAsciiLetter ++
                (matchOptChar '.' ((((base.dropWhile isPySpace).dropWhile
                  isAsciiDigit).dropWhile isPySpace).dropWhile isAsciiLetter)).1 := by
              have := congrArg (fun p => p.2.1) heq
              simpa using this.symm
            have hrest : rest = r := by
              have := congrArg (fun p => p.2.2) heq
              simpa using this.symm
            obtain ⟨x, y, hxy, hy⟩ := restAfterDash_decomp t r hr
            refine ⟨?_, ?_, ?_⟩
            · -- reassemble base
              refine ⟨(base.takeWhile isPySpace) ++
                ((base.dropWhile isPySpace).takeWhile isAsciiDigit) ++
                (((base.dropWhile isPySpace).dropWhile isAsciiDigit).takeWhile isPySpace) ++
                ((((base.dropWhile isPySpace).dropWhile isAsciiDigit).dropWhile
                  isPySpace).takeWhile isAsciiLetter) ++
                (matchOptChar '.' ((((base.dropWhile isPySpace).dropWhile
                  isAsciiDigit).dropWhile isPySpace).dropWhile isAsciiLetter)).1 ++
                ((matchOptChar '.' ((((base.dropWhile isPySpace).dropWhile
                  isAsciiDigit).dropWhile isPySpace).dropWhile
                  isAsciiLetter)).2.takeWhile isPySpace) ++
                [dash] ++ x, y, ?_, hy⟩
              rw [hrest]
              conv_lhs => rw [← List.takeWhile_append_dropWhile isPySpace base]
              conv_lhs => rw [← List.takeWhile_append_dropWhile isAsciiDigit
                (base.dropWhile isPySpace)]
              conv_lhs => rw [← List.takeWhile_append_dropWhile isPySpace
                ((base.dropWhile isPySpace).dropWhile isAsciiDigit)]
              conv_lhs => rw [← List.takeWhile_append_dropWhile isAsciiLetter
                (((base.dropWhile isPySpace).dropWhile isAsciiDigit).dropWhile isPySpace)]
              conv_lhs => rw [← matchOptChar_decomp '.'
                ((((base.dropWhile isPySpace).dropWhile isAsciiDigit).dropWhile
                  isPySpace).dropWhile isAsciiLetter)]
              conv_lhs => rw [← List.takeWhile_append_dropWhile isPySpace
                (matchOptChar '.' ((((base.dropWhile isPySpace).dropWhile
                  isAsciiDigit).dropWhile isPySpace).dropWhile isAsciiLetter)).2]
              rw [hdash, hxy]
              simp [List.append_assoc]
            · constructor
              · rw [hd]
                rcases Nat.eq_zero_or_pos ((base.dropWhile isPySpace).takeWhile
                    isAsciiDigit).length with h0 | h0
                · exfalso
                  apply hlen
                  simp [h0]
                · omega
              · constructor
                · by_contra hgt
                  apply hlen
                  rw [hd] at hgt
                  simp only [Bool.or_eq_true, decide_eq_true_eq]
                  omega
                · intro c hc
                  rw [hd] at hc
                  exact List.mem_takeWhile_imp hc
            · refine ⟨(((base.dropWhile isPySpace).dropWhile isAsciiDigit).dropWhile
                isPySpace).takeWhile isAsciiLetter,
                (matchOptChar '.' ((((base.dropWhile isPySpace).dropWhile
                  isAsciiDigit).dropWhile isPySpace).dropWhile isAsciiLetter)).1,
                hmoeq, ?_, ?_, ?_, matchOptChar_fst _ _⟩
              · by_contra hlt
                apply hmo
                simp only [Bool.or_eq_true, decide_eq_true_eq]
                omega
              · by_contra hgt
                apply hmo
                simp only [Bool.or_eq_true, decide_eq_true_eq]
                omega
              · intro c hc
                exact List.mem_takeWhile_imp hc
          · exact absurd h (by simp)

/-- C2: for a filename whose stem matches `PREFIX_RE`
(`<1-2 digit day> <3-9 letter month, optional dot> <dash> <rest>`),
`build_new_filename` replaces the leading date-and-separator portion with
`"<new_prefix> - "`, keeping the captured remainder (a verbatim substring of
the stem, followed in the stem only by whitespace) and the extension; a
non-matching stem gets the prefix prepended.  In particular
`"11 Apr - EQT Project Updates.pptx"` with prefix `"03 Sep"` yields exactly
`"03 Sep - EQT Project Updates.pptx"`, and dashes inside the remainder are
not consumed. -/
theorem claim_C2_build_new_filename (name npref : String) :
    (∀ d mo rest, PREFIX_RE_match (splitext name.toList).1 = some (d, mo, rest) →
      build_new_filename name npref =
        npref ++ " - " ++ String.mk rest ++ String.mk (splitext name.toList).2 ∧
      (∃ x y, (splitext name.toList).1 = x ++ rest ++ y ∧ ∀ c ∈ y, isPySpace c = true) ∧
      (1 ≤ d.length ∧ d.length ≤ 2 ∧ ∀ c ∈ d, isAsciiDigit c = true) ∧
      (∃ letters dot, mo = letters ++ dot ∧ 3 ≤ letters.length ∧ letters.length ≤ 9 ∧
        (∀ c ∈ letters, isAsciiLetter c = true) ∧ (dot = [] ∨ dot = ['.']))) ∧
    (PREFIX_RE_match (splitext name.toList).1 = none →
      build_new_filename name npref =
        npref ++ " - " ++ String.mk (splitext name.toList).1 ++
          String.mk (splitext name.toList).2) ∧
    build_new_filename "11 Apr - EQT Project Updates.pptx" "03 Sep" =
      "03 Sep - EQT Project Updates.pptx" ∧
    build_new_filename "11 Apr - EQT - More - Dashes.pptx" "03 Sep" =
      "03 Sep - EQT - More - Dashes.pptx" := by
  refine ⟨?_, ?_, by decide, by decide⟩
  · intro d mo rest h
    obtain ⟨hsub, hdig, hmon⟩ := PREFIX_RE_match_decomp _ d mo rest h
    refine ⟨?_, hsub, hdig, hmon⟩
    unfold build_new_filename
    dsimp only
    rw [h]
  · intro h
    unfold build_new_filename
    dsimp only
    rw [h]

/-- Witness for C2 at the spec's concrete example. -/
theorem claim_C2_build_new_filename_witness :
    build_new_filename "11 Apr - EQT Project Updates.pptx" "03 Sep" =
      "03 Sep" ++ " - " ++ String.mk "EQT Project Updates".toList ++
        String.mk (splitext "11 Apr - EQT Project Updates.pptx".toList).2 := by
  have h : PREFIX_RE_match (splitext "11 Apr - EQT Project Updates.pptx".toList).1 =
      some ("11".toList, "Apr".toList, "EQT Project Updates".toList) := by decide
  exact ((claim_C2_build_new_filename "11 Apr - EQT Project Updates.pptx" "03 Sep").1
    "11".toList "Apr".toList "EQT Project Updates".toList h).1

/-! ## Claim C6: idempotence of the filename rewrite -/

theorem takeWhile_eq_self_of_all {α : Type} (p : α → Bool) (l : List α)
    (h : ∀ x ∈ l, p x = true) : l.takeWhile p = l := by
  induction l with
  | nil => rfl
  | cons x t ih =>
    rw [List.takeWhile_cons, h x (by simp), if_pos rfl]
    rw [ih (fun y hy => h y (by simp [hy]))]

theorem splitext_append_ext (X T : List Char)
    (hX : ∀ u ∈ X, u ≠ '/') (hT1 : ∀ u ∈ T, u ≠ '.') (hT2 : ∀ u ∈ T, u ≠ '/')
    (hXd : ∃ u ∈ X, u ≠ '.') :
    splitext (X ++ '.' :: T) = (X, '.' :: T) := by
  unfold splitext
  dsimp only
  have hrev : (X ++ '.' :: T).reverse = T.reverse ++ '.' :: X.reverse := by
    rw [List.reverse_append]
    simp
  have hall : ∀ u ∈ (X ++ '.' :: T).reverse, (fun c => decide (c ≠ '/')) u = true := by
    intro u hu
    rw [List.mem_reverse, List.mem_append] at hu
    simp only [decide_eq_true_eq]
    rcases hu with hu | hu
    · exact hX u hu
    · rcases List.mem_cons.mp hu with rfl | hu
      · decide
      · exact hT2 u hu
  rw [takeWhile_eq_self_of_all _ _ hall, List.dropWhile_eq_nil_iff.mpr hall]
  unfold splitextName
  dsimp only
  rw [List.reverse_reverse, hrev]
  have hTall : ∀ u ∈ T.reverse, (fun c => decide (c ≠ '.')) u = true := by
    intro u hu
    rw [List.mem_reverse] at hu
    simp only [decide_eq_true_eq]
    exact hT1 u hu
  rw [takeWhile_append_of_all _ _ _ hTall, dropWhile_append_of_all _ _ _ hTall]
  rw [List.takeWhile_cons, List.dropWhile_cons]
  norm_num
  intro hforall
  obtain ⟨u, hu, hune⟩ := hXd
  exact absurd (hforall u hu) hune

theorem splitext_no_dot (L : List Char)
    (h1 : ∀ u ∈ L, u ≠ '.') (h2 : ∀ u ∈ L, u ≠ '/') :
    splitext L = (L, []) := by
  unfold splitext
  dsimp only
  have hall : ∀ u ∈ L.reverse, (fun c => decide (c ≠ '/')) u = true := by
    intro u hu
    rw [List.mem_reverse] at hu
    simp only [decide_eq_true_eq]
    exact h2 u hu
  rw [takeWhile_eq_self_of_all _ _ hall, List.dropWhile_eq_nil_iff.mpr hall]
  unfold splitextName
  dsimp only
  rw [List.reverse_reverse]
  have hdall : ∀ u ∈ L.reverse, (fun c => decide (c ≠ '.')) u = true := by
    intro u hu
    rw [List.mem_reverse] at hu
    simp only [decide_eq_true_eq]
    exact h1 u hu
  rw [List.dropWhile_eq_nil_iff.mpr hdall]
  simp

theorem splitext_ext_shape (p : List Char) :
    (splitext p).2 = [] ∨
      ∃ T, (splitext p).2 = '.' :: T ∧ (∀ u ∈ T, u ≠ '.') ∧ (∀ u ∈ T, u ≠ '/') := by
  unfold splitext
  dsimp only
  unfold splitextName
  dsimp only
  rw [List.reverse_reverse]
  split
  · exact Or.inl rfl
  · split
    · right
      refine ⟨((p.reverse.takeWhile (fun c => decide (c ≠ '/'))).takeWhile
          (fun c => decide (c ≠ '.'))).reverse, rfl, ?_, ?_⟩
      · intro u hu
        rw [List.mem_reverse] at hu
        have := List.mem_takeWhile_imp hu
        simpa using this
      · intro u hu
        rw [List.mem_reverse] at hu
        have hu2 : u ∈ p.reverse.takeWhile (fun c => decide (c ≠ '/')) :=
          List.takeWhile_subset _ hu
        have := List.mem_takeWhile_imp hu2
        simpa using this
    · exact Or.inl rfl

theorem rebuilt_stem_match (d1 d2 a b c : Char) (S : List Char)
    (hd1 : isAsciiDigit d1 = true) (hd2 : isAsciiDigit d2 = true)
    (ha : isAsciiLetter a = true) (hb : isAsciiLetter b = true)
    (hc : isAsciiLetter c = true)
    (hS0 : S ≠ [])
    (hhead : ∀ c0, S.head? = some c0 → isPySpace c0 = false)
    (hlast : ∀ c1, S.getLast? = some c1 → isPySpace c1 = false)
    (hnl : '\n' ∉ S) :
    PREFIX_RE_match (d1 :: d2 :: ' ' :: a :: b :: c :: ' ' :: '-' :: ' ' :: S) =
      some ([d1, d2], [a, b, c], S) := by
  cases S with
  | nil => exact absurd rfl hS0
  | cons s0 S' =>
    have hs0 : isPySpace s0 = false := hhead s0 rfl
    have hsp_d : isAsciiDigit ' ' = false := by decide
    have hsp_s : isPySpace ' ' = true := by decide
    have hsp_l : isAsciiLetter ' ' = false := by decide
    have hdash_s : isPySpace '-' = false := by decide
    obtain ⟨c1, hgl⟩ : ∃ c1, (s0 :: S').getLast? = some c1 := by
      cases hglc : (s0 :: S').getLast? with
      | none => exact absurd (List.getLast?_eq_none_iff.mp hglc) (by simp)
      | some c1 => exact ⟨c1, rfl⟩
    have hc1 : isPySpace c1 = false := hlast c1 hgl
    have hrt : rtrimSpaces (s0 :: S') = s0 :: S' := rtrimSpaces_eq_self _ c1 hgl hc1
    have hnl0 : s0 ≠ '\n' := by
      intro h
      exact hnl (by simp [h])
    have hnlS : '\n' ∉ S' := fun h => hnl (List.mem_cons_of_mem _ h)
    have hrest : restAfterDash (' ' :: s0 :: S') = some (s0 :: S') := by
      unfold restAfterDash
      dsimp only
      simp [List.takeWhile_cons, List.dropWhile_cons, hsp_s, hs0, hrt, hnl0, hnlS]
    unfold PREFIX_RE_match
    dsimp only
    simp [List.takeWhile_cons, List.dropWhile_cons, hd1, hd2, ha, hb, hc,
      hsp_d, hsp_s, hsp_l, hdash_s, not_space_of_digit hd1, not_space_of_letter ha,
      matchOptChar, hrest, isDashChar]

/-- C6 counterexample: the rewrite is not idempotent for every filename —
a stem with trailing whitespace (`"x .pptx"`) is rewritten to
`"03 Sep - x .pptx"` on the first pass and to `"03 Sep - x.pptx"` on the
second, because the regex tail `\s*$` strips the whitespace before the
extension on re-application. -/
theorem claim_C6_counterexample :
    build_new_filename (build_new_filename "x .pptx" "03 Sep") "03 Sep" ≠
      build_new_filename "x .pptx" "03 Sep" := by decide

/-- C6 (amended): for a prefix of the `today_strings` form
(`<2-digit day> <3-letter month>`) the rewrite is idempotent for every
filename whose carried-over remainder (the matched rest, or the whole stem
when unmatched) is nonempty, starts and ends with a non-whitespace
character, and contains no newline and no `/`, provided the extension is
nonempty or the remainder contains no dot. -/
theorem claim_C6_amended_idempotent (d1 d2 a b c : Char) (name : String)
    (hd1 : isAsciiDigit d1 = true) (hd2 : isAsciiDigit d2 = true)
    (ha : isAsciiLetter a = true) (hb : isAsciiLetter b = true)
    (hc : isAsciiLetter c = true)
    (hR0 : stemRest name ≠ [])
    (hhead : ∀ c0, (stemRest name).head? = some c0 → isPySpace c0 = false)
    (hlast : ∀ c1, (stemRest name).getLast? = some c1 → isPySpace c1 = false)
    (hnl : '\n' ∉ stemRest name)
    (hsl : ∀ u ∈ stemRest name, u ≠ '/')
    (hdot : (splitext name.toList).2 ≠ [] ∨ ∀ u ∈ stemRest name, u ≠ '.') :
    build_new_filename (build_new_filename name (String.mk [d1, d2, ' ', a, b, c]))
        (String.mk [d1, d2, ' ', a, b, c]) =
      build_new_filename name (String.mk [d1, d2, ' ', a, b, c]) := by
  have hfirst : build_new_filename name (String.mk [d1, d2, ' ', a, b, c]) =
      String.mk [d1, d2, ' ', a, b, c] ++ " - " ++ String.mk (stemRest name) ++
        String.mk (splitext name.toList).2 := by
    unfold build_new_filename stemRest
    dsimp only
    cases hm : PREFIX_RE_match (splitext name.toList).1 with
    | some g => rfl
    | none => rfl
  have hdata : (String.mk [d1, d2, ' ', a, b, c] ++ " - " ++ String.mk (stemRest name) ++
      String.mk (splitext name.toList).2).toList =
      d1 :: d2 :: ' ' :: a :: b :: c :: ' ' :: '-' :: ' ' ::
        (stemRest name ++ (splitext name.toList).2) := by
    show (String.mk [d1, d2, ' ', a, b, c] ++ " - " ++ String.mk (stemRest name) ++
      String.mk (splitext name.toList).2).data = _
    simp [String.data_append]
  have hX : ∀ u ∈ (d1 :: d2 :: ' ' :: a :: b :: c :: ' ' :: '-' :: ' ' :: stemRest name),
      u ≠ '/' := by
    intro u hu
    simp only [List.mem_cons] at hu
    rcases hu with rfl | rfl | rfl | rfl | rfl | rfl | rfl | rfl | rfl | hu
    · exact ne_slash_of_digit hd1
    · exact ne_slash_of_digit hd2
    · decide
    · exact ne_slash_of_letter ha
    · exact ne_slash_of_letter hb
    · exact ne_slash_of_letter hc
    · decide
    · decide
    · decide
    · exact hsl u hu
  rcases splitext_ext_shape name.toList with hE | ⟨T, hET, hTd, hTs⟩
  · rcases hdot with hne | hnoR
    · exact absurd hE hne
    · have hXd : ∀ u ∈ (d1 :: d2 :: ' ' :: a :: b :: c :: ' ' :: '-' :: ' ' :: stemRest name),
          u ≠ '.' := by
        intro u hu
        simp only [List.mem_cons] at hu
        rcases hu with rfl | rfl | rfl | rfl | rfl | rfl | rfl | rfl | rfl | hu
        · exact ne_dot_of_digit hd1
        · exact ne_dot_of_digit hd2
        · decide
        · exact ne_dot_of_letter ha
        · exact ne_dot_of_letter hb
        · exact ne_dot_of_letter hc
        · decide
        · decide
        · decide
        · exact hnoR u hu
      rw [hfirst]
      unfold build_new_filename
      dsimp only
      rw [hdata, hE, List.append_nil]
      rw [splitext_no_dot _ hXd hX]
      dsimp only
      rw [rebuilt_stem_match d1 d2 a b c (stemRest name) hd1 hd2 ha hb hc hR0 hhead hlast hnl]
  · rw [hfirst]
    unfold build_new_filename
    dsimp only
    rw [hdata, hET]
    have happ : (d1 :: d2 :: ' ' :: a :: b :: c :: ' ' :: '-' :: ' ' ::
        (stemRest name ++ '.' :: T)) =
        (d1 :: d2 :: ' ' :: a :: b :: c :: ' ' :: '-' :: ' ' :: stemRest name) ++ '.' :: T := by
      simp
    rw [happ]
    rw [splitext_append_ext _ T hX hTd hTs ⟨d1, by simp, ne_dot_of_digit hd1⟩]
    dsimp only
    rw [rebuilt_stem_match d1 d2 a b c (stemRest name) hd1 hd2 ha hb hc hR0 hhead hlast hnl]

/-- Witness for the amended C6 at prefix `"03 Sep"` and name `"a.pptx"`. -/
theorem claim_C6_amended_idempotent_witness :
    build_new_filename (build_new_filename "a.pptx" (String.mk ['0', '3', ' ', 'S', 'e', 'p']))
        (String.mk ['0', '3', ' ', 'S', 'e', 'p']) =
      build_new_filename "a.pptx" (String.mk ['0', '3', ' ', 'S', 'e', 'p']) := by
  have hst : stemRest "a.pptx" = ['a'] := by decide
  refine claim_C6_amended_idempotent '0' '3' 'S' 'e' 'p' "a.pptx" (by decide) (by decide)
    (by decide) (by decide) (by decide) (by rw [hst]; decide) ?_ ?_ ?_ ?_ ?_
  · intro c0 h
    rw [hst] at h
    simp only [List.head?_cons, Option.some.injEq] at h
    rw [← h]
    decide
  · intro c1 h
    rw [hst] at h
    simp only [List.getLast?_singleton, Option.some.injEq] at h
    rw [← h]
    decide
  · rw [hst]
    decide
  · intro u hu
    rw [hst] at hu
    simp only [List.mem_singleton] at hu
    subst hu
    decide
  · left
    decide

/-! ## Claim C5: `replace_week_ending_text` -/

theorem matchOptPunct_decomp (l : List Char) :
    (matchOptPunct l).1 ++ (matchOptPunct l).2 = l := by
  unfold matchOptPunct
  cases l with
  | nil => rfl
  | cons x t =>
    by_cases hx : x = ':' ∨ x = '-'
    · rcases hx with hx | hx <;> simp [hx]
    · push_neg at hx
      simp [hx.1, hx.2]

theorem matchCI_decomp (cs : List Char) :
    ∀ l p, matchCI cs l = some p → l = p.1 ++ p.2 ∧ p.1.length = cs.length := by
  induction cs with
  | nil =>
    intro l p h
    unfold matchCI at h
    simp only [Option.some.injEq] at h
    rw [← h]
    exact ⟨rfl, rfl⟩
  | cons c cs ih =>
    intro l p h
    unfold matchCI at h
    cases l with
    | nil => exact absurd h (by simp)
    | cons x xs =>
      dsimp only at h
      by_cases hx : x.toLower = c
      · rw [if_pos hx, Option.map_eq_some'] at h
        obtain ⟨q, hq, hpq⟩ := h
        obtain ⟨hq1, hq2⟩ := ih xs q hq
        rw [← hpq]
        exact ⟨by rw [hq1]; rfl, by simp [hq2]⟩
      · rw [if_neg hx] at h
        exact absurd h (by simp)

theorem matchYearPart_decomp (r : List Char) (p : List Char × List Char)
    (h : matchYearPart r = some p) : r = p.1 ++ p.2 := by
  unfold matchYearPart at h
  dsimp only at h
  split at h
  · exact absurd h (by simp)
  · split at h
    · exact absurd h (by simp)
    · split at h
      · next hr2 =>
        simp only [Option.some.injEq] at h
        rw [← h]
        dsimp only
        conv_lhs => rw [← List.takeWhile_append_dropWhile isPySpace r]
        conv_lhs => rw [← List.takeWhile_append_dropWhile isAsciiDigit
          (r.dropWhile isPySpace)]
        rw [hr2]
        simp
      · next c rest hr2 =>
        split at h
        · exact absurd h (by simp)
        · simp only [Option.some.injEq] at h
          rw [← h]
          dsimp only
          conv_lhs => rw [← List.takeWhile_append_dropWhile isPySpace r]
          conv_lhs => rw [← List.takeWhile_append_dropWhile isAsciiDigit
            (r.dropWhile isPySpace)]
          rw [hr2]
          simp

theorem matchDate_decomp (l : List Char) (p : List Char × List Char)
    (h : matchDate l = some p) : l = p.1 ++ p.2 ∧ p.1 ≠ [] := by
  unfold matchDate at h
  dsimp only at h
  split at h
  · exact absurd h (by simp)
  · next hlen =>
    split at h
    · exact absurd h (by simp)
    · split at h
      · exact absurd h (by simp)
      · rw [Option.map_eq_some'] at h
        obtain ⟨q, hq, hpq⟩ := h
        have hyd := matchYearPart_decomp _ q hq
        have hdec := matchOptChar_decomp '.'
          (((l.dropWhile isAsciiDigit).dropWhile isPySpace).dropWhile isAsciiLetter)
        constructor
        · rw [← hpq]
          dsimp only
          conv_lhs => rw [← List.takeWhile_append_dropWhile isAsciiDigit l]
          conv_lhs => rw [← List.takeWhile_append_dropWhile isPySpace
            (l.dropWhile isAsciiDigit)]
          conv_lhs => rw [← List.takeWhile_append_dropWhile isAsciiLetter
            ((l.dropWhile isAsciiDigit).dropWhile isPySpace)]
          conv_lhs => rw [← hdec]
          rw [hyd]
          simp [List.append_assoc]
        · rw [← hpq]
          dsimp only
          intro hcon
          apply hlen
          have hl := congrArg List.length hcon
          simp only [List.length_append, List.length_nil] at hl
          simp only [Bool.or_eq_true, decide_eq_true_eq]
          omega

theorem matchLead1_decomp (l : List Char) (p : List Char × List Char)
    (h : matchLead1 l = some p) : l = p.1 ++ p.2 ∧ p.1 ≠ [] := by
  unfold matchLead1 at h
  cases l with
  | nil => exact absurd h (by simp)
  | cons w t1 =>
    dsimp only at h
    split at h
    · split at h
      · exact absurd h (by simp)
      · next e t4 ht3 =>
        split at h
        · simp only [Option.some.injEq] at h
          rw [← h]
          constructor
          · dsimp only
            conv_lhs => rw [show t1 = (matchOptChar '.' t1).1 ++ (matchOptChar '.' t1).2
              from (matchOptChar_decomp '.' t1).symm]
            conv_lhs => rw [← List.takeWhile_append_dropWhile isPySpace
              (matchOptChar '.' t1).2]
            rw [ht3]
            conv_lhs => rw [show t4 = (matchOptChar '.' t4).1 ++ (matchOptChar '.' t4).2
              from (matchOptChar_decomp '.' t4).symm]
            conv_lhs => rw [← List.takeWhile_append_dropWhile isPySpace
              (matchOptChar '.' t4).2]
            conv_lhs => rw [show (matchOptChar '.' t4).2.dropWhile isPySpace =
              (matchOptPunct ((matchOptChar '.' t4).2.dropWhile isPySpace)).1 ++
              (matchOptPunct ((matchOptChar '.' t4).2.dropWhile isPySpace)).2
              from (matchOptPunct_decomp _).symm]
            conv_lhs => rw [← List.takeWhile_append_dropWhile isPySpace
              (matchOptPunct ((matchOptChar '.' t4).2.dropWhile isPySpace)).2]
            simp [List.append_assoc]
          · simp
        · exact absurd h (by simp)
    · exact absurd h (by simp)

theorem matchLead2_decomp (l : List Char) (p : List Char × List Char)
    (h : matchLead2 l = some p) : l = p.1 ++ p.2 ∧ p.1 ≠ [] := by
  unfold matchLead2 at h
  split at h
  · exact absurd h (by simp)
  · next p1 hp1 =>
    dsimp only at h
    split at h
    · exact absurd h (by simp)
    · next p2 hp2 =>
      simp only [Option.some.injEq] at h
      obtain ⟨h1, hlen1⟩ := matchCI_decomp _ _ _ hp1
      obtain ⟨h2, hlen2⟩ := matchCI_decomp _ _ _ hp2
      rw [← h]
      constructor
      · dsimp only
        conv_lhs => rw [h1]
        conv_lhs => rw [← List.takeWhile_append_dropWhile isPySpace p1.2]
        conv_lhs => rw [h2]
        conv_lhs => rw [← List.takeWhile_append_dropWhile isPySpace p2.2]
        conv_lhs => rw [show p2.2.dropWhile isPySpace =
          (matchOptPunct (p2.2.dropWhile isPySpace)).1 ++
          (matchOptPunct (p2.2.dropWhile isPySpace)).2
          from (matchOptPunct_decomp _).symm]
        conv_lhs => rw [← List.takeWhile_append_dropWhile isPySpace
          (matchOptPunct (p2.2.dropWhile isPySpace)).2]
        simp [List.append_assoc]
      · dsimp only
        intro hcon
        have hl := congrArg List.length hcon
        simp only [List.length_append, List.length_nil] at hl
        rw [hlen1] at hl
        simp only [List.length_cons, List.length_nil] at hl
        omega

theorem matchWEAt_decomp (pat : WEPat) (l : List Char) (prevW : Bool)
    (g : List Char × List Char × List Char)
    (h : matchWEAt pat l prevW = some g) :
    l = g.1 ++ g.2.1 ++ g.2.2 ∧ g.1 ≠ [] := by
  unfold matchWEAt at h
  split at h
  · exact absurd h (by simp)
  · dsimp only at h
    split at h
    · exact absurd h (by simp)
    · next p hp =>
      split at h
      · exact absurd h (by simp)
      · next q hq =>
        simp only [Option.some.injEq] at h
        have hlead : matchLead1 l = some p ∨ matchLead2 l = some p := by
          cases pat with
          | we => exact Or.inl hp
          | weekEnding => exact Or.inr hp
        have hl : l = p.1 ++ p.2 ∧ p.1 ≠ [] := by
          rcases hlead with hx | hx
          · exact matchLead1_decomp l p hx
          · exact matchLead2_decomp l p hx
        obtain ⟨hd1, _⟩ := matchDate_decomp p.2 q hq
        rw [← h]
        refine ⟨?_, hl.2⟩
        dsimp only
        rw [List.append_assoc, ← hd1]
        exact hl.1

theorem findFirstWE_nil (pat : WEPat) (prevW : Bool) :
    findFirstWE pat prevW [] =
      match matchWEAt pat [] prevW with
      | some g => some ([], g.1, g.2.1, g.2.2)
      | none => none := rfl

theorem findFirstWE_cons (pat : WEPat) (prevW : Bool) (c : Char) (t : List Char) :
    findFirstWE pat prevW (c :: t) =
      match matchWEAt pat (c :: t) prevW with
      | some g => some ([], g.1, g.2.1, g.2.2)
      | none =>
        (findFirstWE pat (isWordChar c) t).map
          (fun x => (c :: x.1, x.2.1, x.2.2.1, x.2.2.2)) := rfl

theorem subnGo_zero (pat : WEPat) (label : List Char) (prevW : Bool) (l : List Char) :
    subnGo pat label 0 prevW l = (l, 0) := rfl

theorem subnGo_succ (pat : WEPat) (label : List Char) (fuel : Nat) (prevW : Bool)
    (l : List Char) :
    subnGo pat label (fuel + 1) prevW l =
      match matchWEAt pat l prevW with
      | some g => (g.1 ++ label ++ (subnGo pat label fuel true g.2.2).1,
                   (subnGo pat label fuel true g.2.2).2 + 1)
      | none =>
        match l with
        | [] => ([], 0)
        | c :: t => (c :: (subnGo pat label fuel (isWordChar c) t).1,
                     (subnGo pat label fuel (isWordChar c) t).2) := rfl

theorem subnGo_fuel_irrel (pat : WEPat) (label : List Char) :
    ∀ n l prevW fuel1 fuel2, l.length ≤ n → l.length < fuel1 → l.length < fuel2 →
      subnGo pat label fuel1 prevW l = subnGo pat label fuel2 prevW l := by
  intro n
  induction n with
  | zero =>
    intro l prevW f1 f2 hn h1 h2
    have hl : l = [] := List.length_eq_zero.mp (by omega)
    subst hl
    cases f1 with
    | zero => omega
    | succ f1' =>
      cases f2 with
      | zero => omega
      | succ f2' =>
        rw [subnGo_succ, subnGo_succ]
        cases hm : matchWEAt pat [] prevW with
        | some g =>
          obtain ⟨hdec, hne⟩ := matchWEAt_decomp pat [] prevW g hm
          have h0 : g.1 = [] := by
            rcases List.append_eq_nil.mp hdec.symm with ⟨h1', _⟩
            rcases List.append_eq_nil.mp h1' with ⟨h2', _⟩
            exact h2'
          exact absurd h0 hne
        | none => rfl
  | succ m ih =>
    intro l prevW f1 f2 hn h1 h2
    cases f1 with
    | zero => omega
    | succ f1' =>
      cases f2 with
      | zero => omega
      | succ f2' =>
        rw [subnGo_succ, subnGo_succ]
        cases hm : matchWEAt pat l prevW with
        | some g =>
          obtain ⟨hdec, hne⟩ := matchWEAt_decomp pat l prevW g hm
          have hlen := congrArg List.length hdec
          simp only [List.length_append] at hlen
          have hg1 : 0 < g.1.length := List.length_pos.mpr hne
          simp only [hm]
          rw [ih g.2.2 true f1' f2' (by omega) (by omega) (by omega)]
        | none =>
          cases l with
          | nil => rfl
          | cons c t =>
            simp only [hm]
            rw [ih t (isWordChar c) f1' f2' (by simpa using hn) (by simp at h1; omega)
              (by simp at h2; omega)]

theorem subnGo_of_none (pat : WEPat) (label : List Char) :
    ∀ l prevW fuel, l.length < fuel → findFirstWE pat prevW l = none →
      subnGo pat label fuel prevW l = (l, 0) := by
  intro l
  induction l with
  | nil =>
    intro prevW fuel hf h
    cases fuel with
    | zero => omega
    | succ f =>
      rw [subnGo_succ]
      cases hm : matchWEAt pat [] prevW with
      | some g =>
        rw [findFirstWE_nil, hm] at h
        exact absurd h (by simp)
      | none => rfl
  | cons c t ih =>
    intro prevW fuel hf h
    cases fuel with
    | zero => omega
    | succ f =>
      rw [findFirstWE_cons] at h
      cases hm : matchWEAt pat (c :: t) prevW with
      | some g =>
        rw [hm] at h
        exact absurd h (by simp)
      | none =>
        rw [hm] at h
        simp only [Option.map_eq_none'] at h
        rw [subnGo_succ]
        simp only [hm]
        rw [ih (isWordChar c) f (by simp at hf; omega) h]

theorem subnGo_of_first (pat : WEPat) (label : List Char) :
    ∀ l prevW fuel pre lead date rest, l.length < fuel →
      findFirstWE pat prevW l = some (pre, lead, date, rest) →
      l = pre ++ lead ++ date ++ rest ∧
      subnGo pat label fuel prevW l =
        (pre ++ lead ++ label ++ (subnFrom pat label true rest).1,
         (subnFrom pat label true rest).2 + 1) := by
  intro l
  induction l with
  | nil =>
    intro prevW fuel pre lead date rest hf h
    rw [findFirstWE_nil] at h
    cases hm : matchWEAt pat [] prevW with
    | some g =>
      obtain ⟨hdec, hne⟩ := matchWEAt_decomp pat [] prevW g hm
      have h0 : g.1 = [] := by
        rcases List.append_eq_nil.mp hdec.symm with ⟨h1', _⟩
        rcases List.append_eq_nil.mp h1' with ⟨h2', _⟩
        exact h2'
      exact absurd h0 hne
    | none =>
      rw [hm] at h
      exact absurd h (by simp)
  | cons c t ih =>
    intro prevW fuel pre lead date rest hf h
    cases fuel with
    | zero => omega
    | succ f =>
      rw [findFirstWE_cons] at h
      cases hm : matchWEAt pat (c :: t) prevW with
      | some g =>
        rw [hm] at h
        simp only [Option.some.injEq] at h
        obtain ⟨hdec, hne⟩ := matchWEAt_decomp pat (c :: t) prevW g hm
        have hpre : pre = [] := by
          have := congrArg (fun q => q.1) h
          simpa using this.symm
        have hlead : lead = g.1 := by
          have := congrArg (fun q => q.2.1) h
          simpa using this.symm
        have hdate : date = g.2.1 := by
          have := congrArg (fun q => q.2.2.1) h
          simpa using this.symm
        have hrest : rest = g.2.2 := by
          have := congrArg (fun q => q.2.2.2) h
          simpa using this.symm
        subst hpre hlead hdate hrest
        have hlen := congrArg List.length hdec
        simp only [List.length_append, List.length_cons] at hlen
        have hg1 : 0 < g.1.length := List.length_pos.mpr hne
        constructor
        · simpa using hdec
        · rw [subnGo_succ]
          simp only [hm]
          rw [subnGo_fuel_irrel pat label g.2.2.length g.2.2 true f (g.2.2.length + 1)
            le_rfl (by simp only [List.length_cons] at hf; omega) (by omega)]
          rfl
      | none =>
        rw [hm] at h
        rw [Option.map_eq_some'] at h
        obtain ⟨x, hx, heq⟩ := h
        have hpre : pre = c :: x.1 := by
          have := congrArg (fun q => q.1) heq
          simpa using this.symm
        have hlead : lead = x.2.1 := by
          have := congrArg (fun q => q.2.1) heq
          simpa using this.symm
        have hdate : date = x.2.2.1 := by
          have := congrArg (fun q => q.2.2.1) heq
          simpa using this.symm
        have hrest : rest = x.2.2.2 := by
          have := congrArg (fun q => q.2.2.2) heq
          simpa using this.symm
        subst hpre hlead hdate hrest
        have hxeq : x = (x.1, x.2.1, x.2.2.1, x.2.2.2) := rfl
        obtain ⟨hdec, hsub⟩ := ih (isWordChar c) f x.1 x.2.1 x.2.2.1 x.2.2.2
          (by simp at hf; omega) (by rw [hx, hxeq])
        constructor
        · rw [hdec]
          simp
        · rw [subnGo_succ]
          simp only [hm]
          rw [hsub]
          simp

theorem subnFrom_count_zero (pat : WEPat) (label : List Char) (prevW : Bool)
    (l : List Char) (h : (subnFrom pat label prevW l).2 = 0) :
    subnFrom pat label prevW l = (l, 0) := by
  cases hf : findFirstWE pat prevW l with
  | none => exact subnGo_of_none pat label l prevW (l.length + 1) (by omega) hf
  | some q =>
    obtain ⟨_, hsub⟩ := subnGo_of_first pat label l prevW (l.length + 1)
      q.1 q.2.1 q.2.2.1 q.2.2.2 (by omega) (by rw [hf])
    rw [show subnFrom pat label prevW l =
      subnGo pat label (l.length + 1) prevW l from rfl, hsub] at h
    simp at h

/-- C5 counterexample: a text can contain a substring of the form
`"W.E. <day> <month> <year>"` and still be returned unchanged with
`changed = False` — the regexes require a word boundary before the `W`, so
`"xW.E. 5 Sept 2025"` does not match although it contains the substring. -/
theorem claim_C5_counterexample :
    ("W.E. 5 Sept 2025".toList <:+: "xW.E. 5 Sept 2025".toList) ∧
    replace_week_ending_text "xW.E. 5 Sept 2025" "12 Sept 2025" =
      ("xW.E. 5 Sept 2025", false) := by
  constructor
  · exact ⟨['x'], [], by decide⟩
  · decide

/-- C5 (amended): `replace_week_ending_text` applies the two patterns in
order — `"W.E. <date>"` first, then `"Week Ending <date>"` on the output of
the first pass.  Each pass rewrites its word-boundary-delimited matches left
to right and non-overlapping: with no match the text passes through
unchanged, otherwise the text splits as `pre ++ lead ++ date ++ rest` at the
leftmost match and becomes `pre ++ lead ++ label ++ (pass continued on
rest)`, so every occurrence's date span is replaced with its lead-in
preserved.  `changed = True` iff at least one substitution occurred; a text
in which neither pattern matches anywhere is returned unchanged with
`changed = False`.  Because the second pass runs on the first pass's output,
a label that itself forms a `"Week Ending <date>"` span is rewritten again.
In particular, when the text's only match is a single span and the label's
insertion creates no new match, exactly the date span is replaced and the
lead-in and all surrounding text are preserved; concrete conjuncts cover the
spec's example, a two-span text, and the label-collision case. -/
theorem claim_C5_amended_replace (text label : String) :
    (∀ (pat : WEPat) (prevW : Bool) (l : List Char),
      findFirstWE pat prevW l = none →
      subnFrom pat label.toList prevW l = (l, 0)) ∧
    (∀ (pat : WEPat) (prevW : Bool) (l pre lead date rest : List Char),
      findFirstWE pat prevW l = some (pre, lead, date, rest) →
      l = pre ++ lead ++ date ++ rest ∧
      subnFrom pat label.toList prevW l =
        (pre ++ lead ++ label.toList ++ (subnFrom pat label.toList true rest).1,
         (subnFrom pat label.toList true rest).2 + 1)) ∧
    replace_week_ending_text text label =
      (String.mk (subnPat .weekEnding label.toList
          (subnPat .we label.toList text.toList).1).1,
       decide ((subnPat .we label.toList text.toList).2 ≠ 0) ||
         decide ((subnPat .weekEnding label.toList
           (subnPat .we label.toList text.toList).1).2 ≠ 0)) ∧
    (findFirstWE .we false text.toList = none →
      findFirstWE .weekEnding false text.toList = none →
      replace_week_ending_text text label = (text, false)) ∧
    (∀ pre lead date rest,
      findFirstWE .we false text.toList = some (pre, lead, date, rest) →
      findFirstWE .we true rest = none →
      findFirstWE .weekEnding false (pre ++ lead ++ label.toList ++ rest) = none →
      text.toList = pre ++ lead ++ date ++ rest ∧
      replace_week_ending_text text label =
        (String.mk (pre ++ lead ++ label.toList ++ rest), true)) ∧
    (∀ pre lead date rest,
      findFirstWE .we false text.toList = none →
      findFirstWE .weekEnding false text.toList = some (pre, lead, date, rest) →
      findFirstWE .weekEnding true rest = none →
      text.toList = pre ++ lead ++ date ++ rest ∧
      replace_week_ending_text text label =
        (String.mk (pre ++ lead ++ label.toList ++ rest), true)) ∧
    replace_week_ending_text "W.E. 5 Sept 2025" "12 Sept 2025" =
      ("W.E. 12 Sept 2025", true) ∧
    replace_week_ending_text "W.E. 5 Sept 2025 and W.E. 6 Sept 2025" "12 Sept 2025" =
      ("W.E. 12 Sept 2025 and W.E. 12 Sept 2025", true) ∧
    replace_week_ending_text "W.E. 5 Sept 2025" "Week Ending 99 Sept 2025" =
      ("W.E. Week Ending Week Ending 99 Sept 2025", true) := by
  refine ⟨?_, ?_, ?_, ?_, ?_, ?_, by decide, by decide, by decide⟩
  · intro pat prevW l h
    exact subnGo_of_none pat label.toList l prevW (l.length + 1) (by omega) h
  · intro pat prevW l pre lead date rest h
    exact subnGo_of_first pat label.toList l prevW (l.length + 1) pre lead date rest
      (by omega) h
  · unfold replace_week_ending_text
    simp only [String.toList]
    by_cases h1 : (subnPat .we label.data text.data).2 = 0
    · have e1 : subnPat .we label.data text.data = (text.data, 0) :=
        subnFrom_count_zero .we label.data false text.data h1
      by_cases h2 : (subnPat .weekEnding label.data text.data).2 = 0
      · have e2 : subnPat .weekEnding label.data text.data = (text.data, 0) :=
          subnFrom_count_zero .weekEnding label.data false text.data h2
        simp [e1, e2]
      · simp [e1, h2]
    · by_cases h2 : (subnPat .weekEnding label.data
          (subnPat .we label.data text.data).1).2 = 0
      · have e2 : subnPat .weekEnding label.data
            (subnPat .we label.data text.data).1 =
            ((subnPat .we label.data text.data).1, 0) :=
          subnFrom_count_zero .weekEnding label.data false _ h2
        simp [h1, e2]
      · simp [h1, h2]
  · intro h1 h2
    have e1 : subnPat .we label.toList text.toList = (text.toList, 0) :=
      subnGo_of_none .we label.toList text.toList false (text.toList.length + 1)
        (by omega) h1
    have e2 : subnPat .weekEnding label.toList text.toList = (text.toList, 0) :=
      subnGo_of_none .weekEnding label.toList text.toList false (text.toList.length + 1)
        (by omega) h2
    unfold replace_week_ending_text
    simp only [String.toList] at e1 e2
    simp [e1, e2]
  · intro pre lead date rest h1 h2 h3
    obtain ⟨hdec, hsub⟩ := subnGo_of_first .we label.toList text.toList false
      (text.toList.length + 1) pre lead date rest (by omega) h1
    have hz : subnFrom .we label.toList true rest = (rest, 0) :=
      subnGo_of_none .we label.toList rest true (rest.length + 1) (by omega) h2
    have e1 : subnPat .we label.toList text.toList =
        (pre ++ lead ++ label.toList ++ rest, 1) := by
      show subnGo .we label.toList (text.toList.length + 1) false text.toList = _
      rw [hsub, hz]
    have e2 : subnPat .weekEnding label.toList (pre ++ lead ++ label.toList ++ rest) =
        (pre ++ lead ++ label.toList ++ rest, 0) :=
      subnGo_of_none .weekEnding label.toList _ false (_ + 1) (by omega) h3
    refine ⟨hdec, ?_⟩
    unfold replace_week_ending_text
    simp only [String.toList] at e1 e2
    simp only [List.append_assoc] at e2
    simp [e1, e2]
  · intro pre lead date rest h1 h2 h3
    have e1 : subnPat .we label.toList text.toList = (text.toList, 0) :=
      subnGo_of_none .we label.toList text.toList false (text.toList.length + 1)
        (by omega) h1
    obtain ⟨hdec, hsub⟩ := subnGo_of_first .weekEnding label.toList text.toList false
      (text.toList.length + 1) pre lead date rest (by omega) h2
    have hz : subnFrom .weekEnding label.toList true rest = (rest, 0) :=
      subnGo_of_none .weekEnding label.toList rest true (rest.length + 1) (by omega) h3
    have e2 : subnPat .weekEnding label.toList text.toList =
        (pre ++ lead ++ label.toList ++ rest, 1) := by
      show subnGo .weekEnding label.toList (text.toList.length + 1) false text.toList = _
      rw [hsub, hz]
    refine ⟨hdec, ?_⟩
    unfold replace_week_ending_text
    simp only [String.toList] at e1 e2
    simp [e1, e2]

/-- Witness for the amended C5 on `"Title W.E. 5 Sept 2025"` (conjunct: the
single-span case, hypotheses discharged at the concrete input). -/
theorem claim_C5_amended_replace_witness :
    "Title W.E. 5 Sept 2025".toList =
      "Title ".toList ++ "W.E. ".toList ++ "5 Sept 2025".toList ++ [] ∧
    replace_week_ending_text "Title W.E. 5 Sept 2025" "12 Sept 2025" =
      (String.mk ("Title ".toList ++ "W.E. ".toList ++ "12 Sept 2025".toList ++ []), true) :=
  (claim_C5_amended_replace "Title W.E. 5 Sept 2025" "12 Sept 2025").2.2.2.2.1
    "Title ".toList "W.E. ".toList "5 Sept 2025".toList [] (by decide) (by decide) (by decide)

/-! ## Claim C7: required configuration -/

theorem require_env_missing (env : String → Option String) (n : String)
    (h : env n = none ∨ env n = some "") :
    require_env env n = .error ("Missing required environment variable: " ++ n) := by
  unfold require_env
  rcases h with h | h <;> simp [h]

theorem require_env_error_parts (env : String → Option String) (n e : String)
    (h : require_env env n = .error e) :
    e = "Missing required environment variable: " ++ n ∧
      (env n = none ∨ env n = some "") := by
  unfold require_env at h
  cases hv : env n with
  | none =>
    rw [hv] at h
    dsimp only at h
    simp only [Except.error.injEq] at h
    exact ⟨h.symm, Or.inl rfl⟩
  | some v =>
    rw [hv] at h
    dsimp only at h
    by_cases hv0 : v = ""
    · subst hv0
      rw [if_pos rfl] at h
      simp only [Except.error.injEq] at h
      exact ⟨h.symm, Or.inr rfl⟩
    · rw [if_neg hv0] at h
      exact absurd h (by simp)

/-- C7 (amended): each of the seven SharePoint/auth settings is validated
before any remote call — if one is missing or empty the run stops with the
configuration error and an empty remote trace.  The mail settings, however,
are validated only later (see the counterexample), and `MAIL_CC` /
`MAIL_BCC` may be absent without failing: with every required setting
present and CC/BCC absent the happy-path run completes. -/
theorem claim_C7_amended_config :
    (∀ (w : MainWorld) (env : String → Option String),
      (∃ m ∈ sevenRequired, env m = none ∨ env m = some "") →
      ∃ m ∈ sevenRequired, (env m = none ∨ env m = some "") ∧
        mainRun w env = (.error ("Missing required environment variable: " ++ m), [])) ∧
    env1 "MAIL_CC" = none ∧ env1 "MAIL_BCC" = none ∧
    mainRun world0 env1 = (.ok (), eventsBeforeMail ++ ["get_item_fields", "send_mail"]) := by
  refine ⟨?_, by decide, by decide, by rfl⟩
  intro w env hmiss
  cases he1 : require_env env "TENANT_ID" with
  | error e =>
    obtain ⟨hmsg, hm⟩ := require_env_error_parts env _ e he1
    exact ⟨"TENANT_ID", by simp [sevenRequired], hm,
      by simp only [mainRun, he1]; rw [hmsg]⟩
  | ok v1 =>
  cases he2 : require_env env "CLIENT_ID" with
  | error e =>
    obtain ⟨hmsg, hm⟩ := require_env_error_parts env _ e he2
    exact ⟨"CLIENT_ID", by simp [sevenRequired], hm,
      by simp only [mainRun, he1, he2]; rw [hmsg]⟩
  | ok v2 =>
  cases he3 : require_env env "CLIENT_SECRET" with
  | error e =>
    obtain ⟨hmsg, hm⟩ := require_env_error_parts env _ e he3
    exact ⟨"CLIENT_SECRET", by simp [sevenRequired], hm,
      by simp only [mainRun, he1, he2, he3]; rw [hmsg]⟩
  | ok v3 =>
  cases he4 : require_env env "SP_HOSTNAME" with
  | error e =>
    obtain ⟨hmsg, hm⟩ := require_env_error_parts env _ e he4
    exact ⟨"SP_HOSTNAME", by simp [sevenRequired], hm,
      by simp only [mainRun, he1, he2, he3, he4]; rw [hmsg]⟩
  | ok v4 =>
  cases he5 : require_env env "SP_SITE_PATH" with
  | error e =>
    obtain ⟨hmsg, hm⟩ := require_env_error_parts env _ e he5
    exact ⟨"SP_SITE_PATH", by simp [sevenRequired], hm,
      by simp only [mainRun, he1, he2, he3, he4, he5]; rw [hmsg]⟩
  | ok v5 =>
  cases he6 : require_env env "SP_LIBRARY_NAME" with
  | error e =>
    obtain ⟨hmsg, hm⟩ := require_env_error_parts env _ e he6
    exact ⟨"SP_LIBRARY_NAME", by simp [sevenRequired], hm,
      by simp only [mainRun, he1, he2, he3, he4, he5, he6]; rw [hmsg]⟩
  | ok v6 =>
  cases he7 : require_env env "SP_SOURCE_FOLDER_PATH" with
  | error e =>
    obtain ⟨hmsg, hm⟩ := require_env_error_parts env _ e he7
    exact ⟨"SP_SOURCE_FOLDER_PATH", by simp [sevenRequired], hm,
      by simp only [mainRun, he1, he2, he3, he4, he5, he6, he7]; rw [hmsg]⟩
  | ok v7 =>
    exfalso
    obtain ⟨m, hmem, hm⟩ := hmiss
    have hcontr : ∀ n v, require_env env n = .ok v →
        ¬(env n = none ∨ env n = some "") := by
      intro n v hok hmm
      rw [require_env_missing env n hmm] at hok
      exact absurd hok (by simp)
    simp only [sevenRequired, List.mem_cons, List.mem_singleton] at hmem
    rcases hmem with rfl | rfl | rfl | rfl | rfl | rfl | rfl | hfalse
    · exact hcontr _ _ he1 hm
    · exact hcontr _ _ he2 hm
    · exact hcontr _ _ he3 hm
    · exact hcontr _ _ he4 hm
    · exact hcontr _ _ he5 hm
    · exact hcontr _ _ he6 hm
    · exact hcontr _ _ he7 hm
    · simp at hfalse

/-- Witness for the amended C7: a world and an environment missing
`SP_HOSTNAME`. -/
theorem claim_C7_amended_config_witness :
    ∃ m ∈ sevenRequired,
      ((fun n => if n = "SP_HOSTNAME" then none else some "x") m = none ∨
       (fun n => if n = "SP_HOSTNAME" then none else some "x") m = some "") ∧
      mainRun world0 (fun n => if n = "SP_HOSTNAME" then none else some "x") =
        (.error ("Missing required environment variable: " ++ m), []) :=
  claim_C7_amended_config.1 world0 (fun n => if n = "SP_HOSTNAME" then none else some "x")
    ⟨"SP_HOSTNAME", by simp [sevenRequired], Or.inl (by simp)⟩

/-- C7 counterexample: with the seven SharePoint settings present but the
mail settings absent, the run performs the whole remote phase (token, site,
drive, copy, poll, listing, pptx pass) and only then fails with the
configuration error for `MAIL_SENDER_UPN` — refuting "fails before any
remote call is issued" for the mail settings. -/
theorem claim_C7_counterexample :
    env0 "MAIL_SENDER_UPN" = none ∧
    mainRun world0 env0 =
      (.error "Missing required environment variable: MAIL_SENDER_UPN",
       eventsBeforeMail) ∧
    eventsBeforeMail ≠ [] := by
  refine ⟨by decide, by rfl, by decide⟩
